import Mathlib

/-!
Verification of the race simulation core of the `rosie-races` repository.

The definitions below are a shallow embedding of `src/game/scenes/RaceScene.ts`
and `src/data/familyMembers.ts`.  Machine floats are modelled as exact
rationals; randomness (speed draws, speed variations, roster shuffles) and the
wall clock (`performance.now()`) are passed in as explicit parameters, so every
behaviour of the original code corresponds to a choice of those parameters.
Event emissions (`this.game.events.emit(...)`) are returned as an explicit
list next to the successor state.
-/

attribute [local semireducible] Rat.mul Rat.add Rat.sub Rat.inv

set_option maxRecDepth 16000

namespace RosieRaces

/-- MOVEMENT_CONFIG.TAP_VELOCITY_BOOST: velocity added per tap. -/
def TAP_VELOCITY_BOOST : ℚ := 15

/-- MOVEMENT_CONFIG.MAX_VELOCITY: maximum velocity cap. -/
def MAX_VELOCITY : ℚ := 300

/-- MOVEMENT_CONFIG.FRICTION: velocity multiplier per frame (0.98). -/
def FRICTION : ℚ := 98 / 100

/-- CHECKPOINT_CONFIG.POSITION_RATIOS: checkpoint positions as fractions of track length. -/
def POSITION_RATIOS : List ℚ := [1 / 3, 2 / 3]

/-- CHECKPOINT_CONFIG.FAST_ANSWER_THRESHOLD: 3 seconds in ms. -/
def FAST_ANSWER_THRESHOLD : ℚ := 3000

/-- CHECKPOINT_CONFIG.FAST_ANSWER_BOOST. -/
def FAST_ANSWER_BOOST : ℚ := 50

/-- CHECKPOINT_CONFIG.SLOW_ANSWER_BOOST. -/
def SLOW_ANSWER_BOOST : ℚ := 20

/-- AI_CONFIG.SPEED_VARIATION_INTERVAL: time between AI speed changes (ms). -/
def SPEED_VARIATION_INTERVAL : ℚ := 2000

/-- AI_CONFIG.SPEED_VARIATION_AMOUNT: max AI speed change per variation. -/
def SPEED_VARIATION_AMOUNT : ℚ := 5

/-- TRACK_CONFIG.START_LINE_RATIO (0.065). -/
def startLineRatioConst : ℚ := 65 / 1000

/-- TRACK_CONFIG.FINISH_LINE_RATIO (0.85). -/
def finishLineRatioConst : ℚ := 85 / 100

/-- TRACK_CONFIG.ROSIE_START_RATIO (0.03). -/
def rosieStartRatioConst : ℚ := 3 / 100

/-- SPEED_CONFIG.SPEED_SCALE: global multiplier for all racer speeds (0.7). -/
def SPEED_SCALE : ℚ := 7 / 10

/-- SPEED_CONFIG.VARIANCE_FACTOR: how much slower min speed is relative to max (0.5). -/
def VARIANCE_FACTOR : ℚ := 1 / 2

/-- A family-member profile from `familyMembers.ts`. -/
structure FamilyMember where
  id : String
  name : String
  color : ℕ
  baseMinSpeed : ℚ
  baseMaxSpeed : ℚ
  role : String
deriving DecidableEq, Repr

/-- The FAMILY_MEMBERS roster from `familyMembers.ts`. -/
def FAMILY_MEMBERS : List FamilyMember :=
  [ { id := "mommy", name := "Mommy", color := 0x4a90d9,
      baseMinSpeed := 35, baseMaxSpeed := 55, role := "Mom" },
    { id := "daddy", name := "Daddy", color := 0x2ecc71,
      baseMinSpeed := 40, baseMaxSpeed := 58, role := "Dad" },
    { id := "uncle-zack", name := "Uncle Zack", color := 0xe67e22,
      baseMinSpeed := 33, baseMaxSpeed := 51, role := "Uncle" },
    { id := "gaga", name := "Gaga", color := 0x9b59b6,
      baseMinSpeed := 30, baseMaxSpeed := 48, role := "Grandma" },
    { id := "grandpa", name := "Grandpa", color := 0xe74c3c,
      baseMinSpeed := 27, baseMaxSpeed := 45, role := "Grandpa" },
    { id := "lalo", name := "Lalo", color := 0xf1c40f,
      baseMinSpeed := 42, baseMaxSpeed := 60, role := "Dog" } ]

/-- Modelled from the spec: the scaled minimum speed of a profile.  `RaceScene.ts`
imports a two-argument `getMinSpeed(member, speedScale)`; that revision of
`familyMembers.ts` is absent from the snapshot, which only holds an earlier
revision reading the multiplier from a global `SPEED_CONFIG.SPEED_SCALE`.
Following the spec ("a random initial speed within that profile's [min,max]
range, scaled by a global difficulty multiplier") the multiplier is passed
explicitly, with the earlier revision's formula. -/
def getMinSpeed (member : FamilyMember) (scale : ℚ) : ℚ :=
  member.baseMinSpeed * scale * (1 - VARIANCE_FACTOR)

/-- Modelled from the spec: the scaled maximum speed of a profile (see `getMinSpeed`). -/
def getMaxSpeed (member : FamilyMember) (scale : ℚ) : ℚ :=
  member.baseMaxSpeed * scale

/-- getRandomRacers from `familyMembers.ts`: shuffle the pool, then
`slice(0, Math.min(count, pool.length))`.  The shuffle outcome is passed in as
`shuffledPool` (a permutation of the pool chosen by the RNG). -/
def getRandomRacers (shuffledPool : List FamilyMember) (count : ℕ) : List FamilyMember :=
  shuffledPool.take (min count shuffledPool.length)

/-- Math.min on rationals. -/
def mathMin (a b : ℚ) : ℚ := if a ≤ b then a else b

/-- Math.max on rationals. -/
def mathMax (a b : ℚ) : ℚ := if a ≤ b then b else a

/-- Phaser.Math.Clamp(value, lo, hi) = Math.max(lo, Math.min(hi, value)). -/
def clamp (value lo hi : ℚ) : ℚ := mathMax lo (mathMin hi value)

/-- The GameState union from `events.ts`. -/
inductive GState where
  | ready
  | countdown
  | racing
  | paused
  | finished
deriving DecidableEq, Repr

/-- Events emitted by the scene towards the React host (payload data only as
far as the verified claims need it). -/
inductive Emit where
  | showMathProblem (checkpointIndex : ℕ)
  | gameStateChanged (state : GState)
  | raceFinished
  | raceStarted
  | raceResultsUpdated (allFinished : Bool)
  | allRacersFinished
  | countdownTick (count : ℕ)
deriving DecidableEq, Repr

/-- Competitor state for AI racers (interface Competitor in RaceScene.ts);
`x` is the sprite's x coordinate. -/
structure Competitor where
  x : ℚ
  familyMember : FamilyMember
  speed : ℚ
  lastSpeedChangeTime : ℚ
  finishTime : Option ℚ
  finishPosition : Option ℕ
deriving DecidableEq, Repr

/-- The track positions calculated in `create()`. -/
structure TrackGeometry where
  startLineX : ℚ
  finishLineX : ℚ
  rosieStartX : ℚ
  checkpointPositions : List ℚ
deriving DecidableEq, Repr

/-- The mutable fields of RaceScene that the race simulation reads or writes
(rendering-only fields are omitted).  `countdownTimerActive` models whether
`countdownTimer` is a live timer object. -/
structure SceneState where
  geometry : TrackGeometry
  gameState : GState
  raceStartTime : ℚ
  velocity : ℚ
  hasStarted : Bool
  hasFinished : Bool
  rosieX : ℚ
  rosieFinishTime : Option ℚ
  rosieFinishPosition : Option ℕ
  nextFinishPosition : ℕ
  isPaused : Bool
  passedCheckpoints : List Bool
  competitors : List Competitor
  speedScale : ℚ
  countdownTimerActive : Bool
deriving DecidableEq, Repr

/-- Track geometry computation in `create()`: positions proportional to the
canvas width, checkpoints at the configured fractions of the track length. -/
def mkGeometry (width : ℚ) (cpRatios : List ℚ) : TrackGeometry :=
  let startX := width * startLineRatioConst
  let finishX := width * finishLineRatioConst
  let trackLength := finishX - startX
  { startLineX := startX
    finishLineX := finishX
    rosieStartX := width * rosieStartRatioConst
    checkpointPositions := cpRatios.map (fun ratio => startX + trackLength * ratio) }

/-- createCompetitors: one competitor per selected racer, at the start position,
with the drawn initial speed (`Phaser.Math.FloatBetween(min, max)`, passed in
as `draws`), `lastSpeedChangeTime = 0` and no finish data. -/
def createCompetitors (g : TrackGeometry) (members : List FamilyMember)
    (draws : List ℚ) : List Competitor :=
  (members.zip draws).map (fun p =>
    { x := g.rosieStartX
      familyMember := p.1
      speed := p.2
      lastSpeedChangeTime := 0
      finishTime := none
      finishPosition := none })

/-- The scene state right after `preload()` + `create()`: geometry computed,
checkpoints unpassed, competitors created from the shuffled roster and the
drawn speeds, all race-progress fields at their initial values. -/
def createScene (width : ℚ) (cpRatios : List ℚ) (shuffledPool : List FamilyMember)
    (draws : List ℚ) (scale : ℚ) : SceneState :=
  let g := mkGeometry width cpRatios
  { geometry := g
    gameState := GState.ready
    raceStartTime := 0
    velocity := 0
    hasStarted := false
    hasFinished := false
    rosieX := g.rosieStartX
    rosieFinishTime := none
    rosieFinishPosition := none
    nextFinishPosition := 1
    isPaused := false
    passedCheckpoints := g.checkpointPositions.map (fun _ => false)
    competitors := createCompetitors g (getRandomRacers shuffledPool 5) draws
    speedScale := scale
    countdownTimerActive := false }

/-- setGameState: assign the new state and emit GAME_STATE_CHANGED. -/
def setGameState (s : SceneState) (newState : GState) : SceneState × List Emit :=
  ({ s with gameState := newState }, [Emit.gameStateChanged newState])

/-- startCountdown: state to countdown, start the countdown timer, first tick. -/
def startCountdown (s : SceneState) : SceneState × List Emit :=
  let r := setGameState s GState.countdown
  ({ r.1 with countdownTimerActive := true }, r.2 ++ [Emit.countdownTick 3])

/-- startRacing (runs when the countdown completes): state to racing, record
the race start time, emit RACE_STARTED. -/
def startRacing (s : SceneState) (now : ℚ) : SceneState × List Emit :=
  let r := setGameState s GState.racing
  ({ r.1 with hasStarted := true, raceStartTime := now, countdownTimerActive := false },
   r.2 ++ [Emit.raceStarted])

/-- handleTap from RaceScene.ts, including every early return. -/
def handleTap (s : SceneState) : SceneState × List Emit :=
  if s.gameState = GState.ready then
    startCountdown s
  else if s.gameState = GState.countdown then
    (s, [])
  else if s.gameState = GState.finished ∨ s.hasFinished then
    (s, [])
  else if s.isPaused then
    (s, [])
  else if s.gameState = GState.racing then
    ({ s with velocity := mathMin (s.velocity + TAP_VELOCITY_BOOST) MAX_VELOCITY }, [])
  else
    (s, [])

/-- handleSettingsUpdated: store the new speed scale and clamp every
competitor's speed into the range recomputed with it. -/
def handleSettingsUpdated (s : SceneState) (scale : ℚ) : SceneState :=
  { s with
    speedScale := scale
    competitors := s.competitors.map (fun c =>
      { c with speed := clamp c.speed (getMinSpeed c.familyMember scale)
                          (getMaxSpeed c.familyMember scale) }) }

/-- handleMathAnswer: unconditionally clear the pause flag; on a correct answer
set the velocity to the fast or slow boost depending on the answer time; on an
incorrect answer leave the velocity alone. -/
def handleMathAnswer (s : SceneState) (correct : Bool) (timeTaken : ℚ) : SceneState :=
  let s1 := { s with isPaused := false }
  if correct then
    if timeTaken < FAST_ANSWER_THRESHOLD then
      { s1 with velocity := FAST_ANSWER_BOOST }
    else
      { s1 with velocity := SLOW_ANSWER_BOOST }
  else
    s1

/-- resetCompetitors + the field resets of handleRestart: back to `ready`,
everything cleared, countdown timer destroyed, Rosie back at the start, and a
fresh set of competitors from a new shuffle and new speed draws. -/
def handleRestart (s : SceneState) (shuffledPool : List FamilyMember)
    (draws : List ℚ) : SceneState × List Emit :=
  ({ s with
      gameState := GState.ready
      hasStarted := false
      hasFinished := false
      velocity := 0
      isPaused := false
      passedCheckpoints := s.geometry.checkpointPositions.map (fun _ => false)
      raceStartTime := 0
      rosieFinishTime := none
      rosieFinishPosition := none
      nextFinishPosition := 1
      countdownTimerActive := false
      rosieX := s.geometry.rosieStartX
      competitors := createCompetitors s.geometry (getRandomRacers shuffledPool 5) draws },
   [Emit.gameStateChanged GState.ready])

/-- The forEach of checkForCheckpoint: walk the (position, passed) pairs with
their indices, flipping every unpassed checkpoint whose position `x` has
reached; returns the new passed flags and the indices that fired. -/
def checkpointSweep (x : ℚ) : ℕ → List (ℚ × Bool) → List Bool × List ℕ
  | _, [] => ([], [])
  | idx, p :: rest =>
    let r := checkpointSweep x (idx + 1) rest
    if ¬ p.2 ∧ p.1 ≤ x then
      (true :: r.1, idx :: r.2)
    else
      (p.2 :: r.1, r.2)

/-- checkForCheckpoint: flip newly reached checkpoints, and if any fired set
the pause flag, zero the velocity and emit SHOW_MATH_PROBLEM for each. -/
def checkForCheckpoint (s : SceneState) : SceneState × List Emit :=
  let r := checkpointSweep s.rosieX 0 (s.geometry.checkpointPositions.zip s.passedCheckpoints)
  ({ s with
      passedCheckpoints := r.1
      isPaused := if r.2.isEmpty then s.isPaused else true
      velocity := if r.2.isEmpty then s.velocity else 0 },
   r.2.map Emit.showMathProblem)

/-- Whether every competitor has a finish time. -/
def allCompetitorsFinished (s : SceneState) : Bool :=
  s.competitors.all (fun c => c.finishTime.isSome)

/-- emitRaceResultsUpdate: emit the partial results; if every competitor has
finished, also move to `finished`. -/
def emitRaceResultsUpdate (s : SceneState) : SceneState × List Emit :=
  if allCompetitorsFinished s then
    let r := setGameState s GState.finished
    (r.1, [Emit.raceResultsUpdated true] ++ r.2)
  else
    (s, [Emit.raceResultsUpdated false])

/-- handleRosieFinish: record Rosie's finish time and position from the shared
counter, bump the counter, stop her, emit RACE_FINISHED and the results. -/
def handleRosieFinish (s : SceneState) (now : ℚ) : SceneState × List Emit :=
  let s1 := { s with
    rosieFinishTime := some (now - s.raceStartTime)
    rosieFinishPosition := some s.nextFinishPosition
    nextFinishPosition := s.nextFinishPosition + 1
    hasFinished := true
    velocity := 0 }
  let r := emitRaceResultsUpdate s1
  (r.1, [Emit.raceFinished] ++ r.2)

/-- The forEach of checkCompetitorFinishes: competitors already finished are
skipped; each competitor at or past the finish line takes the next counter
value; returns the updated competitors, the final counter, and whether any
competitor finished during the sweep. -/
def competitorFinishSweep (finishX now startTime : ℚ) :
    List Competitor → ℕ → List Competitor × ℕ × Bool
  | [], next => ([], next, false)
  | c :: rest, next =>
    if c.finishTime.isSome then
      let r := competitorFinishSweep finishX now startTime rest next
      (c :: r.1, r.2.1, r.2.2)
    else if finishX ≤ c.x then
      let c1 := { c with
        finishTime := some (now - startTime)
        finishPosition := some next }
      let r := competitorFinishSweep finishX now startTime rest (next + 1)
      (c1 :: r.1, r.2.1, true)
    else
      let r := competitorFinishSweep finishX now startTime rest next
      (c :: r.1, r.2.1, r.2.2)

/-- checkCompetitorFinishes: run the sweep, and if some competitor just
finished while Rosie has already finished, refresh the results. -/
def checkCompetitorFinishes (s : SceneState) (now : ℚ) : SceneState × List Emit :=
  let r := competitorFinishSweep s.geometry.finishLineX now s.raceStartTime
             s.competitors s.nextFinishPosition
  let s1 := { s with competitors := r.1, nextFinishPosition := r.2.1 }
  if r.2.2 ∧ s1.rosieFinishTime.isSome then
    emitRaceResultsUpdate s1
  else
    (s1, [])

/-- checkAllRacersFinished: once Rosie and every competitor have finished,
move to `finished` and emit the full results. -/
def checkAllRacersFinished (s : SceneState) : SceneState × List Emit :=
  if s.rosieFinishTime.isNone then
    (s, [])
  else if ¬ allCompetitorsFinished s then
    (s, [])
  else
    let r := setGameState s GState.finished
    (r.1, r.2 ++ [Emit.allRacersFinished])

/-- The per-competitor body of updateCompetitors: skip finished competitors;
initialise `lastSpeedChangeTime` on the first update; apply the random speed
variation (the value drawn by `FloatBetween`) and re-clamp into the scaled
profile range when the interval has elapsed; then move and clamp to the track. -/
def updateCompetitor (g : TrackGeometry) (scale time dt variation : ℚ)
    (c : Competitor) : Competitor :=
  if c.finishTime.isSome then c
  else
    let c1 := if c.lastSpeedChangeTime = 0 then { c with lastSpeedChangeTime := time } else c
    let c2 :=
      if SPEED_VARIATION_INTERVAL ≤ time - c1.lastSpeedChangeTime then
        { c1 with
          lastSpeedChangeTime := time
          speed := clamp (c1.speed + variation) (getMinSpeed c1.familyMember scale)
                     (getMaxSpeed c1.familyMember scale) }
      else c1
    { c2 with x := clamp (c2.x + c2.speed * dt) g.rosieStartX g.finishLineX }

/-- updateCompetitors: apply `updateCompetitor` to each competitor, feeding the
i-th variation draw to the i-th competitor. -/
def updateCompetitors (s : SceneState) (time dt : ℚ) (variations : List ℚ) : SceneState :=
  { s with competitors := s.competitors.enum.map (fun p =>
      updateCompetitor s.geometry s.speedScale time dt (variations.getD p.1 0) p.2) }

/-- The update(time, delta) step of RaceScene.ts: early-out unless racing or
paused; move the AI and check their finishes; Rosie's friction, snap-to-zero,
movement, checkpoint check and finish check only while not checkpoint-paused
and moving; finally the all-finished check.  `now` is `performance.now()`. -/
def update (s : SceneState) (time delta : ℚ) (variations : List ℚ) (now : ℚ) :
    SceneState × List Emit :=
  if s.gameState ≠ GState.racing ∧ s.gameState ≠ GState.paused then (s, [])
  else
    let dt := delta / 1000
    let s1 := updateCompetitors s time dt variations
    let r2 := checkCompetitorFinishes s1 now
    let s2 := r2.1
    if s2.isPaused then (s2, r2.2)
    else
      let v1 := s2.velocity * FRICTION
      let v2 := if |v1| < 1 / 10 then 0 else v1
      let s3 := { s2 with velocity := v2 }
      let r4 :=
        if 0 < s3.velocity then
          let s3a := { s3 with
            rosieX := clamp (s3.rosieX + s3.velocity * dt) s3.geometry.rosieStartX
                        s3.geometry.finishLineX }
          let r3b := checkForCheckpoint s3a
          if s3.geometry.finishLineX ≤ r3b.1.rosieX ∧ r3b.1.rosieFinishTime.isNone then
            let r3c := handleRosieFinish r3b.1 now
            (r3c.1, r3b.2 ++ r3c.2)
          else r3b
        else (s3, ([] : List Emit))
      let r5 := checkAllRacersFinished r4.1
      (r5.1, r2.2 ++ r4.2 ++ r5.2)

/-- The inputs the host or the engine can feed into the scene; random draws
and clock readings travel with the event. -/
inductive REvent where
  | tap
  | answer (correct : Bool) (timeTaken : ℚ)
  | restart (shuffledPool : List FamilyMember) (draws : List ℚ)
  | settings (scale : ℚ)
  | countdownDone (now : ℚ)
  | frame (time delta : ℚ) (variations : List ℚ) (now : ℚ)

/-- Whether an event is the restart signal. -/
def REvent.isRestart : REvent → Bool
  | .restart _ _ => true
  | _ => false

/-- Dispatch one event to its handler, as wired up in setupTapListener and the
Phaser game loop.  The countdown completion only starts the race if the timer
is still alive (a restart destroys it). -/
def stepEvent (s : SceneState) : REvent → SceneState × List Emit
  | .tap => handleTap s
  | .answer correct timeTaken => (handleMathAnswer s correct timeTaken, [])
  | .restart shuffledPool draws => handleRestart s shuffledPool draws
  | .settings scale => (handleSettingsUpdated s scale, [])
  | .countdownDone now =>
      if s.countdownTimerActive then startRacing s now else (s, [])
  | .frame time delta variations now => update s time delta variations now

/-- Run a list of events from a state. -/
def applyEvents (s : SceneState) : List REvent → SceneState
  | [] => s
  | e :: rest => applyEvents (stepEvent s e).1 rest

/-- States reachable from `init` by any event sequence. -/
inductive Reachable (init : SceneState) : SceneState → Prop
  | refl : Reachable init init
  | step {s : SceneState} (e : REvent) :
      Reachable init s → Reachable init (stepEvent s e).1

/-- The velocity snap-to-zero of `update` (velocities below 0.1 become 0). -/
def snapVelocity (v : ℚ) : ℚ := if |v| < 1 / 10 then 0 else v

/-- Rosie's position after one `update` step from `s` with frame time `delta`
(in ms), assuming the movement branch runs. -/
def newRosieX (s : SceneState) (delta : ℚ) : ℚ :=
  clamp (s.rosieX + snapVelocity (s.velocity * FRICTION) * (delta / 1000))
    s.geometry.rosieStartX s.geometry.finishLineX

/-- Placeholder competitor used as the `List.getD` default. -/
def defaultCompetitor : Competitor :=
  { x := 0
    familyMember :=
      { id := "", name := "", color := 0, baseMinSpeed := 0, baseMaxSpeed := 0, role := "" }
    speed := 0
    lastSpeedChangeTime := 0
    finishTime := none
    finishPosition := none }

/-- All finish positions currently assigned in a state: Rosie's (if any)
followed by each competitor's (if any). -/
def assignedPositions (s : SceneState) : List ℕ :=
  s.rosieFinishPosition.toList ++ s.competitors.filterMap Competitor.finishPosition

/-- The inductive invariant of the race simulation: velocity bounds, the
finish-time/finish-position fields set together, the assigned finish
positions forming exactly 1..(counter-1), and the checkpoint bookkeeping
arrays staying aligned. -/
structure StateInv (s : SceneState) : Prop where
  vel_nonneg : 0 ≤ s.velocity
  vel_le : s.velocity ≤ MAX_VELOCITY
  next_pos : 1 ≤ s.nextFinishPosition
  rosie_sync : s.rosieFinishTime.isSome = s.rosieFinishPosition.isSome
  comp_sync : ∀ c ∈ s.competitors, c.finishTime.isSome = c.finishPosition.isSome
  contig : (assignedPositions s).Perm (List.range' 1 (s.nextFinishPosition - 1))
  cp_len : s.passedCheckpoints.length = s.geometry.checkpointPositions.length

/-- The speed-range invariant for AI racers: a nonnegative speed scale, and
every competitor's speed inside the scaled range of its profile. -/
def SpeedInv (s : SceneState) : Prop :=
  0 ≤ s.speedScale ∧
  ∀ c ∈ s.competitors,
    0 ≤ c.familyMember.baseMinSpeed ∧
    c.familyMember.baseMinSpeed ≤ c.familyMember.baseMaxSpeed ∧
    getMinSpeed c.familyMember s.speedScale ≤ c.speed ∧
    c.speed ≤ getMaxSpeed c.familyMember s.speedScale

/-- Well-formedness of the randomness travelling with an event, relative to
the state receiving it: restart draws are `FloatBetween(min, max)` results for
the freshly selected roster (whose profiles have sane base speeds), and the
settings menu only supplies nonnegative speed scales. -/
def ValidStep (s : SceneState) : REvent → Prop
  | .restart shuffledPool draws =>
      List.Forall₂
        (fun m d =>
          0 ≤ m.baseMinSpeed ∧ m.baseMinSpeed ≤ m.baseMaxSpeed ∧
          getMinSpeed m s.speedScale ≤ d ∧ d ≤ getMaxSpeed m s.speedScale)
        (getRandomRacers shuffledPool 5) draws
  | .settings scale => 0 ≤ scale
  | _ => True

/-- States reachable from `init` by event sequences whose randomness is
well-formed in the sense of `ValidStep`. -/
inductive ReachableV (init : SceneState) : SceneState → Prop
  | refl : ReachableV init init
  | step {s : SceneState} (e : REvent) :
      ReachableV init s → ValidStep s e → ReachableV init (stepEvent s e).1

/-! Concrete demonstration states, each produced by running an explicit event
trace from a freshly created scene. -/

/-- The Mommy profile, used by the demonstration states. -/
def demoMember : FamilyMember :=
  { id := "mommy", name := "Mommy", color := 0x4a90d9,
    baseMinSpeed := 35, baseMaxSpeed := 55, role := "Mom" }

/-- A scene on a 100-pixel-wide canvas with the default checkpoint ratios and
a single AI competitor (Mommy, initial speed 20): start line at 6.5, finish
line at 85, Rosie starting at 3, checkpoints at 98/3 and 353/6. -/
def demoInit : SceneState := createScene 100 POSITION_RATIOS [demoMember] [20] SPEED_SCALE

/-- `demoInit` after the countdown and one tap: racing with velocity 15. -/
def demoRacing : SceneState :=
  applyEvents demoInit [REvent.tap, REvent.countdownDone 100, REvent.tap]

/-- `demoInit` racing with velocity 45 (three taps), still before the first
checkpoint. -/
def demoFastRacing : SceneState :=
  applyEvents demoInit
    [REvent.tap, REvent.countdownDone 100, REvent.tap, REvent.tap, REvent.tap]

/-- The frame that carries `demoFastRacing` across the first checkpoint
(Rosie moves to 47.1, past 98/3 but short of 353/6 and of the finish). -/
def demoCheckpointFrame : REvent := REvent.frame 200 1000 [] 1200

/-- The state paused at the first checkpoint reached from `demoFastRacing`. -/
def demoPausedAtCheckpoint : SceneState :=
  (stepEvent demoFastRacing demoCheckpointFrame).1

/-- A racing state in which Rosie has already finished while the AI competitor
has not: twenty taps max out the velocity and a single one-second frame
carries Rosie across both checkpoints and the finish line. -/
def demoRosieFinished : SceneState :=
  applyEvents demoInit
    ([REvent.tap, REvent.countdownDone 100] ++ List.replicate 20 REvent.tap ++
      [REvent.frame 200 1000 [] 5000])

/-- A scene on a 1000-pixel-wide canvas (finish line at 850) with a single AI
competitor, used for the same-step finish tie. -/
def demoWide : SceneState := createScene 1000 POSITION_RATIOS [demoMember] [20] SPEED_SCALE

/-- A trace bringing Rosie to x = 823.8 (velocity 294, both checkpoints
answered) while the competitor is still at x = 84. -/
def demoTieTrace : List REvent :=
  [REvent.tap, REvent.countdownDone 100] ++ List.replicate 20 REvent.tap ++
    [REvent.frame 1000 2000 [] 2000, REvent.answer true 1000] ++
    List.replicate 17 REvent.tap ++ [REvent.frame 3000 700 [] 3000]

/-- The state just before the tie-breaking frame: both Rosie and the
competitor are unfinished and both cross the finish line in the next frame. -/
def demoTiePre : SceneState := applyEvents demoWide demoTieTrace

/-- The 40-second frame in which both racers cross the finish line. -/
def demoTieFrame : REvent := REvent.frame 5000 40000 [] 9000

/-- A scene created from an invalid configuration: a checkpoint ratio of 3/2
(outside (0,1)) and an empty competitor pool. -/
def demoBadConfig : SceneState := createScene 1000 [3 / 2] [] [] SPEED_SCALE

/-! Basic lemmas about the embedding. -/

lemma Reachable_trans {a b c : SceneState} (hab : Reachable a b) (hbc : Reachable b c) :
    Reachable a c := by
  induction hbc with
  | refl => exact hab
  | step e _ ih => exact Reachable.step e ih

lemma reachable_applyEvents (s : SceneState) (events : List REvent) :
    Reachable s (applyEvents s events) := by
  induction events generalizing s with
  | nil => exact Reachable.refl
  | cons e rest ih =>
      have h := ih (stepEvent s e).1
      have hone : Reachable s (stepEvent s e).1 := Reachable.step e Reachable.refl
      exact Reachable_trans hone h

lemma updateCompetitors_eq (s : SceneState) (t dt : ℚ) (vs : List ℚ) :
    updateCompetitors s t dt vs =
      { s with competitors := s.competitors.enum.map (fun p =>
          updateCompetitor s.geometry s.speedScale t dt (vs.getD p.1 0) p.2) } := rfl

lemma emitRaceResultsUpdate_fst (s : SceneState) :
    (emitRaceResultsUpdate s).1 =
      { s with gameState :=
          if allCompetitorsFinished s then GState.finished else s.gameState } := by
  unfold emitRaceResultsUpdate setGameState
  split <;> simp_all

lemma checkCompetitorFinishes_of_rosie_none (s : SceneState) (now : ℚ)
    (h : s.rosieFinishTime = none) :
    checkCompetitorFinishes s now =
      ({ s with
          competitors := (competitorFinishSweep s.geometry.finishLineX now s.raceStartTime
            s.competitors s.nextFinishPosition).1
          nextFinishPosition := (competitorFinishSweep s.geometry.finishLineX now
            s.raceStartTime s.competitors s.nextFinishPosition).2.1 }, []) := by
  unfold checkCompetitorFinishes
  simp [h]

/-! Lemmas about the checkpoint sweep. -/

lemma checkpointSweep_length (x : ℚ) (pairs : List (ℚ × Bool)) (idx : ℕ) :
    (checkpointSweep x idx pairs).1.length = pairs.length := by
  induction pairs generalizing idx with
  | nil => rfl
  | cons p rest ih =>
      simp only [checkpointSweep]
      split <;> simp [ih]

lemma checkpointSweep_get? (x : ℚ) (pairs : List (ℚ × Bool)) :
    ∀ (idx k : ℕ) (q : ℚ × Bool), pairs.get? k = some q →
      (checkpointSweep x idx pairs).1.get? k = some (q.2 || decide (q.1 ≤ x)) := by
  induction pairs with
  | nil => intro idx k q h; simp at h
  | cons p rest ih =>
      intro idx k q h
      obtain ⟨px, pb⟩ := p
      cases k with
      | zero =>
          injection h with h
          subst h
          cases pb with
          | false =>
              by_cases hx : px ≤ x
              · simp [checkpointSweep, hx]
              · simp [checkpointSweep, hx]
          | true => simp [checkpointSweep]
      | succ k' =>
          have h' : rest.get? k' = some q := h
          have hrec := ih (idx + 1) k' q h'
          simp only [checkpointSweep]
          split <;> simpa using hrec

lemma checkpointSweep_mem_hits (x : ℚ) (pairs : List (ℚ × Bool)) :
    ∀ (idx k : ℕ) (q : ℚ × Bool), pairs.get? k = some q →
      q.2 = false → q.1 ≤ x → idx + k ∈ (checkpointSweep x idx pairs).2 := by
  induction pairs with
  | nil => intro idx k q h; simp at h
  | cons p rest ih =>
      intro idx k q h hq hx
      obtain ⟨px, pb⟩ := p
      cases k with
      | zero =>
          injection h with h
          subst h
          simp only at hq
          subst hq
          simp [checkpointSweep, hx]
      | succ k' =>
          have h' : rest.get? k' = some q := h
          have hmem := ih (idx + 1) k' q h' hq hx
          have harith : idx + 1 + k' = idx + (k' + 1) := by omega
          rw [harith] at hmem
          simp only [checkpointSweep]
          split
          · exact List.mem_cons_of_mem _ hmem
          · exact hmem

/-! Small field-preservation lemmas. -/

lemma updateCompetitor_finishPosition (g : TrackGeometry) (sc t dt v : ℚ) (c : Competitor) :
    (updateCompetitor g sc t dt v c).finishPosition = c.finishPosition := by
  unfold updateCompetitor
  split
  · rfl
  · dsimp only
    split <;> (try dsimp only) <;> split <;> rfl

lemma updateCompetitor_finishTime (g : TrackGeometry) (sc t dt v : ℚ) (c : Competitor) :
    (updateCompetitor g sc t dt v c).finishTime = c.finishTime := by
  unfold updateCompetitor
  split
  · rfl
  · dsimp only
    split <;> (try dsimp only) <;> split <;> rfl

lemma updateCompetitor_familyMember (g : TrackGeometry) (sc t dt v : ℚ) (c : Competitor) :
    (updateCompetitor g sc t dt v c).familyMember = c.familyMember := by
  unfold updateCompetitor
  split
  · rfl
  · dsimp only
    split <;> (try dsimp only) <;> split <;> rfl

lemma checkAllRacersFinished_competitors (s : SceneState) :
    (checkAllRacersFinished s).1.competitors = s.competitors := by
  unfold checkAllRacersFinished setGameState
  split
  · rfl
  · split
    · rfl
    · rfl

lemma checkAllRacersFinished_rosieFinishPosition (s : SceneState) :
    (checkAllRacersFinished s).1.rosieFinishPosition = s.rosieFinishPosition := by
  unfold checkAllRacersFinished setGameState
  split
  · rfl
  · split
    · rfl
    · rfl

lemma checkAllRacersFinished_nextFinishPosition (s : SceneState) :
    (checkAllRacersFinished s).1.nextFinishPosition = s.nextFinishPosition := by
  unfold checkAllRacersFinished setGameState
  split
  · rfl
  · split
    · rfl
    · rfl

lemma handleRosieFinish_competitors (s : SceneState) (now : ℚ) :
    (handleRosieFinish s now).1.competitors = s.competitors := by
  simp [handleRosieFinish, emitRaceResultsUpdate_fst]

lemma handleRosieFinish_rosieFinishPosition (s : SceneState) (now : ℚ) :
    (handleRosieFinish s now).1.rosieFinishPosition = some s.nextFinishPosition := by
  simp [handleRosieFinish, emitRaceResultsUpdate_fst]

lemma updateCompetitors_getD_finishPosition (s : SceneState) (t dt : ℚ) (vs : List ℚ)
    (j : ℕ) :
    (((updateCompetitors s t dt vs).competitors.getD j defaultCompetitor)).finishPosition =
      ((s.competitors.getD j defaultCompetitor)).finishPosition := by
  rw [updateCompetitors_eq]
  rcases h : s.competitors[j]? with _ | c
  · simp [List.getD_eq_get?, List.get?_map, List.get?_enum, List.get?_eq_getElem?, h]
  · simp [List.getD_eq_get?, List.get?_map, List.get?_enum, List.get?_eq_getElem?, h,
      updateCompetitor_finishPosition]

/-! Lemmas about the competitor finish sweep. -/

lemma competitorFinishSweep_counter_le (fx now st : ℚ) :
    ∀ (cs : List Competitor) (next : ℕ),
      next ≤ (competitorFinishSweep fx now st cs next).2.1 := by
  intro cs
  induction cs with
  | nil => intro next; simp [competitorFinishSweep]
  | cons c rest ih =>
      intro next
      simp only [competitorFinishSweep]
      split
      · exact ih next
      · split
        · exact le_trans (Nat.le_succ next) (ih (next + 1))
        · exact ih next

lemma competitorFinishSweep_getD_new (fx now st : ℚ) :
    ∀ (cs : List Competitor) (next j p : ℕ),
      ((cs.getD j defaultCompetitor)).finishPosition = none →
      (((competitorFinishSweep fx now st cs next).1.getD j defaultCompetitor)).finishPosition
        = some p →
      next ≤ p ∧ p < (competitorFinishSweep fx now st cs next).2.1 := by
  intro cs
  induction cs with
  | nil =>
      intro next j p h hp
      simp only [competitorFinishSweep] at hp
      rw [List.getD] at hp
      simp [defaultCompetitor] at hp
  | cons c rest ih =>
      intro next j p h hp
      simp only [competitorFinishSweep] at hp ⊢
      split at hp
      · cases j with
        | zero =>
            simp only [List.getD_cons_zero] at h hp
            rw [h] at hp
            cases hp
        | succ j' =>
            simp only [List.getD_cons_succ] at h hp
            rw [if_pos (by assumption)]
            exact ih next j' p h hp
      · split at hp
        · cases j with
          | zero =>
              simp only [List.getD_cons_zero] at hp
              injection hp with hp
              subst hp
              rw [if_neg (by assumption), if_pos (by assumption)]
              exact ⟨le_refl _, lt_of_lt_of_le (Nat.lt_succ_self next)
                (competitorFinishSweep_counter_le fx now st rest (next + 1))⟩
          | succ j' =>
              simp only [List.getD_cons_succ] at h hp
              rw [if_neg (by assumption), if_pos (by assumption)]
              have hrec := ih (next + 1) j' p h hp
              exact ⟨le_trans (Nat.le_succ next) hrec.1, hrec.2⟩
        · cases j with
          | zero =>
              simp only [List.getD_cons_zero] at h hp
              rw [h] at hp
              cases hp
          | succ j' =>
              simp only [List.getD_cons_succ] at h hp
              rw [if_neg (by assumption), if_neg (by assumption)]
              exact ih next j' p h hp

/-! C1: reaching a checkpoint. -/

/-- C1 counterexample: in the reachable state `demoFastRacing`, the next frame
carries Rosie past the first checkpoint; the checkpoint is marked passed, the
velocity is zeroed, the quiz notification fires with index 0 — but the race
state does not transition to `paused`: it remains `racing` and no state-change
notification is emitted.  The claim that the state transitions to `paused` is
therefore false. -/
theorem checkpoint_does_not_enter_paused_state_cex :
    demoPausedAtCheckpoint.passedCheckpoints = [true, false] ∧
    demoPausedAtCheckpoint.isPaused = true ∧
    demoPausedAtCheckpoint.velocity = 0 ∧
    Emit.showMathProblem 0 ∈ (stepEvent demoFastRacing demoCheckpointFrame).2 ∧
    demoPausedAtCheckpoint.gameState = GState.racing ∧
    demoPausedAtCheckpoint.gameState ≠ GState.paused ∧
    Emit.gameStateChanged GState.paused ∉ (stepEvent demoFastRacing demoCheckpointFrame).2 := by
  decide

/-- C1 amended: when the controlled racer's position first reaches or exceeds
an unpassed checkpoint's position during a simulation step (and stays short of
the finish line), the checkpoint is marked passed, the velocity is set to 0,
the internal pause flag is set, and a quiz-requested notification carrying
exactly that checkpoint's index is emitted — but the public game state does
not transition to `paused`; it remains `racing`. -/
theorem checkpoint_reached_pauses_and_requests_quiz
    (s : SceneState) (time delta : ℚ) (variations : List ℚ) (now : ℚ)
    (i : ℕ) (cpX : ℚ)
    (hstate : s.gameState = GState.racing)
    (hnp : s.isPaused = false)
    (hrt : s.rosieFinishTime = none)
    (hcp : s.geometry.checkpointPositions.get? i = some cpX)
    (hunpassed : s.passedCheckpoints.get? i = some false)
    (hv : 0 < snapVelocity (s.velocity * FRICTION))
    (hreach : cpX ≤ newRosieX s delta)
    (hnofinish : newRosieX s delta < s.geometry.finishLineX) :
    (stepEvent s (REvent.frame time delta variations now)).1.passedCheckpoints.get? i
        = some true ∧
    (stepEvent s (REvent.frame time delta variations now)).1.velocity = 0 ∧
    (stepEvent s (REvent.frame time delta variations now)).1.isPaused = true ∧
    Emit.showMathProblem i ∈ (stepEvent s (REvent.frame time delta variations now)).2 ∧
    (stepEvent s (REvent.frame time delta variations now)).1.gameState = GState.racing := by
  have hczip : ((s.geometry.checkpointPositions.zip s.passedCheckpoints).get? i)
      = some (cpX, false) := by
    rw [List.get?_zip_eq_some]
    exact ⟨hcp, hunpassed⟩
  have hpassed := checkpointSweep_get? (newRosieX s delta)
    (s.geometry.checkpointPositions.zip s.passedCheckpoints) 0 i (cpX, false) hczip
  have hpassedT : (checkpointSweep (newRosieX s delta) 0
      (s.geometry.checkpointPositions.zip s.passedCheckpoints)).1.get? i = some true := by
    rw [hpassed]
    simp [hreach]
  have hhit := checkpointSweep_mem_hits (newRosieX s delta)
    (s.geometry.checkpointPositions.zip s.passedCheckpoints) 0 i (cpX, false) hczip
    rfl hreach
  rw [Nat.zero_add] at hhit
  have hne : (checkpointSweep (newRosieX s delta) 0
      (s.geometry.checkpointPositions.zip s.passedCheckpoints)).2.isEmpty = false := by
    cases hE : (checkpointSweep (newRosieX s delta) 0
        (s.geometry.checkpointPositions.zip s.passedCheckpoints)).2 with
    | nil => rw [hE] at hhit; cases hhit
    | cons a rest => rfl
  unfold newRosieX snapVelocity at hpassedT hhit hne hnofinish
  unfold snapVelocity at hv
  simp only [stepEvent]
  unfold update
  rw [if_neg (by simp [hstate])]
  simp only [updateCompetitors_eq]
  simp only [checkCompetitorFinishes_of_rosie_none, hrt]
  simp only [hnp, Bool.false_eq_true, if_false]
  rw [if_pos hv]
  unfold checkForCheckpoint
  simp only [hne, Bool.false_eq_true, if_false]
  rw [if_neg (fun hcon => absurd hcon.1 (not_le.mpr hnofinish))]
  simp only [checkAllRacersFinished, hrt, Option.isNone_none, if_true]
  refine ⟨?_, trivial, trivial, ?_, hstate⟩
  · simpa using hpassedT
  · simp only [List.mem_append, List.not_mem_nil, false_or, or_false]
    exact List.mem_map.mpr ⟨i, hhit, rfl⟩

/-- C2 counterexample: in the reachable state `demoRacing` (racing, not
paused, velocity 15), a correct fast answer event is not ignored — it sets
the velocity to 50.  The claim that answer events received while not paused
leave the velocity unchanged is therefore false. -/
theorem answer_while_not_paused_changes_velocity_cex :
    demoRacing.isPaused = false ∧ demoRacing.gameState = GState.racing ∧
    demoRacing.velocity = 15 ∧
    (stepEvent demoRacing (REvent.answer true 1000)).1.velocity = 50 ∧
    (stepEvent demoRacing (REvent.answer true 1000)).1.velocity ≠ demoRacing.velocity := by
  decide

/-- C2 amended: `handleMathAnswer` has no pause guard.  An answer received
while not paused leaves the game state and pause flag unchanged and, for an
incorrect answer, the velocity unchanged; but a correct answer overwrites the
velocity with the fast or slow boost even though the race was not paused. -/
theorem answer_handler_unguarded (s : SceneState) (correct : Bool) (timeTaken : ℚ)
    (hnp : s.isPaused = false) :
    (stepEvent s (REvent.answer correct timeTaken)).1.gameState = s.gameState ∧
    (stepEvent s (REvent.answer correct timeTaken)).1.isPaused = false ∧
    (correct = false →
      (stepEvent s (REvent.answer correct timeTaken)).1.velocity = s.velocity) ∧
    (correct = true → timeTaken < FAST_ANSWER_THRESHOLD →
      (stepEvent s (REvent.answer correct timeTaken)).1.velocity = FAST_ANSWER_BOOST) ∧
    (correct = true → FAST_ANSWER_THRESHOLD ≤ timeTaken →
      (stepEvent s (REvent.answer correct timeTaken)).1.velocity = SLOW_ANSWER_BOOST) ∧
    (stepEvent s (REvent.answer correct timeTaken)).2 = [] := by
  simp only [stepEvent, handleMathAnswer]
  cases correct with
  | false => simp
  | true =>
      by_cases h : timeTaken < FAST_ANSWER_THRESHOLD
      · simp [h]
      · simp [h, not_lt.mp h]

/-- Witness for `answer_handler_unguarded` at the reachable state
`demoRacing` with a correct fast answer. -/
theorem answer_handler_unguarded_witness :
    demoRacing.isPaused = false ∧
    (stepEvent demoRacing (REvent.answer true 1000)).1.gameState = demoRacing.gameState ∧
    (stepEvent demoRacing (REvent.answer true 1000)).1.velocity = FAST_ANSWER_BOOST := by
  have h := answer_handler_unguarded demoRacing true 1000 (by decide)
  exact ⟨by decide, h.1, h.2.2.2.1 rfl (by decide)⟩

/-! C9: answering the quiz while paused at a checkpoint. -/

/-- C9: with the race paused at a checkpoint (pause flag set, game state
`racing`, velocity zeroed by the checkpoint), an answer outcome resumes the
race (pause flag cleared, game state `racing`), setting the velocity to the
fast boost for a correct answer under the threshold, to the slow boost for a
correct answer at or over it, and leaving it at 0 for an incorrect answer. -/
theorem answer_at_checkpoint_boosts (s : SceneState) (correct : Bool) (timeTaken : ℚ)
    (hpaused : s.isPaused = true) (hstate : s.gameState = GState.racing)
    (hv : s.velocity = 0) :
    (stepEvent s (REvent.answer correct timeTaken)).1.isPaused = false ∧
    (stepEvent s (REvent.answer correct timeTaken)).1.gameState = GState.racing ∧
    (correct = true → timeTaken < FAST_ANSWER_THRESHOLD →
      (stepEvent s (REvent.answer correct timeTaken)).1.velocity = FAST_ANSWER_BOOST) ∧
    (correct = true → FAST_ANSWER_THRESHOLD ≤ timeTaken →
      (stepEvent s (REvent.answer correct timeTaken)).1.velocity = SLOW_ANSWER_BOOST) ∧
    (correct = false → (stepEvent s (REvent.answer correct timeTaken)).1.velocity = 0) := by
  simp only [stepEvent, handleMathAnswer]
  cases correct with
  | false => simp [hstate, hv]
  | true =>
      by_cases h : timeTaken < FAST_ANSWER_THRESHOLD
      · simp [h, hstate]
      · simp [h, not_lt.mp h, hstate]

/-- Witness for `answer_at_checkpoint_boosts` at the reachable state
`demoPausedAtCheckpoint` with a correct answer after 1000 ms (fast-answer
threshold 3000 ms): velocity becomes the fast boost 50 and the race resumes. -/
theorem answer_at_checkpoint_boosts_witness :
    (stepEvent demoPausedAtCheckpoint (REvent.answer true 1000)).1.isPaused = false ∧
    (stepEvent demoPausedAtCheckpoint (REvent.answer true 1000)).1.gameState = GState.racing ∧
    (stepEvent demoPausedAtCheckpoint (REvent.answer true 1000)).1.velocity =
      FAST_ANSWER_BOOST := by
  have h := answer_at_checkpoint_boosts demoPausedAtCheckpoint true 1000
    (by decide) (by decide) (by decide)
  exact ⟨h.1, h.2.1, h.2.2.1 rfl (by decide)⟩

/-- Witness for `checkpoint_reached_pauses_and_requests_quiz` at the reachable
state `demoFastRacing` and its checkpoint-crossing frame. -/
theorem checkpoint_reached_pauses_and_requests_quiz_witness :
    (stepEvent demoFastRacing demoCheckpointFrame).1.passedCheckpoints.get? 0 = some true ∧
    (stepEvent demoFastRacing demoCheckpointFrame).1.velocity = 0 ∧
    (stepEvent demoFastRacing demoCheckpointFrame).1.isPaused = true ∧
    Emit.showMathProblem 0 ∈ (stepEvent demoFastRacing demoCheckpointFrame).2 ∧
    (stepEvent demoFastRacing demoCheckpointFrame).1.gameState = GState.racing :=
  checkpoint_reached_pauses_and_requests_quiz demoFastRacing 200 1000 [] 1200 0 (98 / 3)
    (by decide) (by decide) (by decide) (by decide) (by decide) (by decide) (by decide)
    (by decide)

/-! C3: ordering of finish checks within a step. -/

/-- C3 counterexample: from the reachable state `demoTiePre` (Rosie at 823.8
with velocity 294, the AI competitor at 84, both unfinished, finish line at
850), the next frame carries both across the finish line; the AI competitor
is assigned finish position 1 and Rosie finish position 2.  The claim that the
controlled racer is checked first and receives the smaller position in a
same-step tie is therefore false. -/
theorem same_step_finish_tie_ai_first_cex :
    demoTiePre.rosieFinishPosition = none ∧
    demoTiePre.competitors.map Competitor.finishPosition = [none] ∧
    (stepEvent demoTiePre demoTieFrame).1.competitors.map Competitor.finishPosition
      = [some 1] ∧
    (stepEvent demoTiePre demoTieFrame).1.rosieFinishPosition = some 2 := by
  decide

/-- C3 amended: within a single simulation step the AI racers' finish checks
are evaluated first, before the controlled racer's position update, checkpoint
detection and finish detection; consequently, when an AI racer and the
controlled racer are both assigned finish positions in the same step, the AI
racer receives the smaller position — the tie-break favours the AI racers,
not the controlled racer. -/
theorem ai_finish_checked_before_rosie
    (s : SceneState) (time delta : ℚ) (vs : List ℚ) (now : ℚ) (j p q : ℕ)
    (hstate : s.gameState = GState.racing)
    (hnp : s.isPaused = false)
    (hrt : s.rosieFinishTime = none)
    (hrp : s.rosieFinishPosition = none)
    (hcomp_pre : ((s.competitors.getD j defaultCompetitor)).finishPosition = none)
    (hcomp_post : (((stepEvent s (REvent.frame time delta vs now)).1.competitors.getD j
        defaultCompetitor)).finishPosition = some p)
    (hrosie_post : (stepEvent s (REvent.frame time delta vs now)).1.rosieFinishPosition
        = some q) :
    p < q := by
  have hpre' := updateCompetitors_getD_finishPosition s time (delta / 1000) vs j
  rw [hcomp_pre] at hpre'
  rw [updateCompetitors_eq] at hpre'
  have hpost := And.intro hcomp_post hrosie_post
  clear hcomp_post hrosie_post
  simp only [stepEvent] at hpost
  unfold update at hpost
  rw [if_neg (by simp [hstate])] at hpost
  simp only [updateCompetitors_eq] at hpost
  simp only [checkCompetitorFinishes_of_rosie_none, hrt] at hpost
  simp only [hnp, Bool.false_eq_true, if_false] at hpost
  dsimp only at hpre'
  split at hpost
  · -- the snapped velocity is 0, so the movement condition is 0 < 0
    split at hpost
    · rename_i h0
      exact absurd h0 (lt_irrefl 0)
    · obtain ⟨hc, hr⟩ := hpost
      rw [checkAllRacersFinished_rosieFinishPosition] at hr
      dsimp only at hr
      rw [hrp] at hr
      cases hr
  · -- the snapped velocity is the post-friction velocity
    split at hpost
    · -- the movement branch ran; case on the finish condition
      split at hpost
      · -- Rosie crossed the finish line this step
        obtain ⟨hc, hr⟩ := hpost
        rw [checkAllRacersFinished_rosieFinishPosition,
          handleRosieFinish_rosieFinishPosition] at hr
        rw [checkAllRacersFinished_competitors, handleRosieFinish_competitors] at hc
        simp only [checkForCheckpoint] at hr hc
        have hb := competitorFinishSweep_getD_new s.geometry.finishLineX now
          s.raceStartTime
          (s.competitors.enum.map (fun pr =>
            updateCompetitor s.geometry s.speedScale time (delta / 1000)
              (vs.getD pr.1 0) pr.2))
          s.nextFinishPosition j p hpre' hc
        injection hr with hr
        rw [hr] at hb
        exact hb.2
      · -- Rosie did not finish: contradiction with the post-state assignment
        obtain ⟨hc, hr⟩ := hpost
        rw [checkAllRacersFinished_rosieFinishPosition] at hr
        simp only [checkForCheckpoint] at hr
        rw [hrp] at hr
        cases hr
    · -- Rosie did not move: contradiction with the post-state assignment
      obtain ⟨hc, hr⟩ := hpost
      rw [checkAllRacersFinished_rosieFinishPosition] at hr
      dsimp only at hr
      rw [hrp] at hr
      cases hr

/-- Witness for `ai_finish_checked_before_rosie` at the reachable tie state
`demoTiePre` and the frame in which both racers cross the finish line. -/
theorem ai_finish_checked_before_rosie_witness : (1 : ℕ) < 2 :=
  ai_finish_checked_before_rosie demoTiePre 5000 40000 [] 9000 0 1 2
    (by decide) (by decide) (by decide) (by decide) (by decide) (by decide) (by decide)

/-! C4: setup never validates its configuration. -/

/-- C4 counterexample: with a checkpoint ratio of 3/2 (outside the open
interval (0,1)) and an empty competitor pool, setup does not fail — it
constructs a race in the `ready` state, with zero competitors and a
checkpoint position lying beyond the finish line. -/
theorem invalid_config_still_constructs_cex :
    demoBadConfig.gameState = GState.ready ∧
    demoBadConfig.competitors = [] ∧
    demoBadConfig.geometry.checkpointPositions = [2485 / 2] ∧
    demoBadConfig.geometry.finishLineX = 850 ∧
    ¬ (2485 / 2 : ℚ) ≤ demoBadConfig.geometry.finishLineX := by
  refine ⟨rfl, rfl, by decide, by decide, by decide⟩

/-- C4 amended: setup performs no configuration validation at all.  For every
configuration — any canvas width, any checkpoint ratios, any competitor pool
(including an empty one) and any speed scale — `createScene` constructs a
race in the `ready` state, with one competitor per selected racer paired with
a speed draw and one passed-flag per configured checkpoint. -/
theorem createScene_never_fails (width : ℚ) (cpRatios : List ℚ)
    (shuffledPool : List FamilyMember) (draws : List ℚ) (scale : ℚ) :
    (createScene width cpRatios shuffledPool draws scale).gameState = GState.ready ∧
    (createScene width cpRatios shuffledPool draws scale).competitors.length =
      min (getRandomRacers shuffledPool 5).length draws.length ∧
    (createScene width cpRatios shuffledPool draws scale).passedCheckpoints.length =
      cpRatios.length := by
  refine ⟨rfl, ?_, ?_⟩
  · simp [createScene, createCompetitors]
  · simp [createScene, mkGeometry]

/-! C8: restart resets the race. -/

/-- C8: a restart signal received in any state resets the whole race in the
one synchronous handler call: state `ready`, velocity 0, pause flag cleared,
Rosie back at the start, every checkpoint unpassed, the finish counter back
at 1, Rosie's finish data cleared, the countdown timer destroyed, and a fresh
competitor roster at the start line with no finish data and speeds freshly
sampled within the scaled profile bounds; the only emission is the `ready`
state change. -/
theorem restart_resets_race (s : SceneState) (shuffledPool : List FamilyMember)
    (draws : List ℚ)
    (hdraws : List.Forall₂
      (fun m d => getMinSpeed m s.speedScale ≤ d ∧ d ≤ getMaxSpeed m s.speedScale)
      (getRandomRacers shuffledPool 5) draws) :
    (stepEvent s (REvent.restart shuffledPool draws)).1.gameState = GState.ready ∧
    (stepEvent s (REvent.restart shuffledPool draws)).1.velocity = 0 ∧
    (stepEvent s (REvent.restart shuffledPool draws)).1.isPaused = false ∧
    (stepEvent s (REvent.restart shuffledPool draws)).1.rosieX = s.geometry.rosieStartX ∧
    (∀ b ∈ (stepEvent s (REvent.restart shuffledPool draws)).1.passedCheckpoints,
      b = false) ∧
    (stepEvent s (REvent.restart shuffledPool draws)).1.nextFinishPosition = 1 ∧
    (stepEvent s (REvent.restart shuffledPool draws)).1.rosieFinishTime = none ∧
    (stepEvent s (REvent.restart shuffledPool draws)).1.rosieFinishPosition = none ∧
    (stepEvent s (REvent.restart shuffledPool draws)).1.countdownTimerActive = false ∧
    (stepEvent s (REvent.restart shuffledPool draws)).1.hasStarted = false ∧
    (stepEvent s (REvent.restart shuffledPool draws)).1.hasFinished = false ∧
    (∀ c ∈ (stepEvent s (REvent.restart shuffledPool draws)).1.competitors,
      c.x = s.geometry.rosieStartX ∧ c.finishTime = none ∧ c.finishPosition = none ∧
      c.lastSpeedChangeTime = 0 ∧
      getMinSpeed c.familyMember s.speedScale ≤ c.speed ∧
      c.speed ≤ getMaxSpeed c.familyMember s.speedScale) ∧
    (stepEvent s (REvent.restart shuffledPool draws)).2 =
      [Emit.gameStateChanged GState.ready] := by
  refine ⟨rfl, rfl, rfl, rfl, ?_, rfl, rfl, rfl, rfl, rfl, rfl, ?_, rfl⟩
  · intro b hb
    simp only [stepEvent, handleRestart] at hb
    rcases List.mem_map.mp hb with ⟨_, _, rfl⟩
    rfl
  · intro c hc
    simp only [stepEvent, handleRestart, createCompetitors] at hc
    rcases List.mem_map.mp hc with ⟨⟨m, d⟩, hpr, rfl⟩
    have hmd := (List.forall₂_iff_zip.mp hdraws).2 hpr
    exact ⟨rfl, rfl, rfl, rfl, hmd.1, hmd.2⟩

/-! The inductive invariant: creation, and preservation by every event. -/

lemma checkAllRacersFinished_fst_eq (s : SceneState) :
    ∃ g, (checkAllRacersFinished s).1 = { s with gameState := g } := by
  unfold checkAllRacersFinished setGameState
  split
  · exact ⟨s.gameState, rfl⟩
  · split
    · exact ⟨s.gameState, rfl⟩
    · exact ⟨GState.finished, rfl⟩

lemma checkCompetitorFinishes_fst_eq (s : SceneState) (now : ℚ) :
    ∃ g, (checkCompetitorFinishes s now).1 =
      { s with
        competitors := (competitorFinishSweep s.geometry.finishLineX now s.raceStartTime
          s.competitors s.nextFinishPosition).1
        nextFinishPosition := (competitorFinishSweep s.geometry.finishLineX now
          s.raceStartTime s.competitors s.nextFinishPosition).2.1
        gameState := g } := by
  unfold checkCompetitorFinishes
  dsimp only
  split
  · rw [emitRaceResultsUpdate_fst]
    exact ⟨_, rfl⟩
  · exact ⟨s.gameState, rfl⟩

lemma handleRosieFinish_fst_eq (s : SceneState) (now : ℚ) :
    ∃ g, (handleRosieFinish s now).1 =
      { s with
        rosieFinishTime := some (now - s.raceStartTime)
        rosieFinishPosition := some s.nextFinishPosition
        nextFinishPosition := s.nextFinishPosition + 1
        hasFinished := true
        velocity := 0
        gameState := g } := by
  unfold handleRosieFinish
  dsimp only
  rw [emitRaceResultsUpdate_fst]
  exact ⟨_, rfl⟩

lemma competitorFinishSweep_spec (fx now st : ℚ) :
    ∀ (cs : List Competitor) (next : ℕ),
      (∀ c ∈ cs, c.finishTime.isSome = c.finishPosition.isSome) →
      (∀ c ∈ (competitorFinishSweep fx now st cs next).1,
          c.finishTime.isSome = c.finishPosition.isSome) ∧
      ((competitorFinishSweep fx now st cs next).1.filterMap
          Competitor.finishPosition).Perm
        ((cs.filterMap Competitor.finishPosition) ++
          List.range' next ((competitorFinishSweep fx now st cs next).2.1 - next)) := by
  intro cs
  induction cs with
  | nil =>
      intro next hsync
      constructor
      · intro c hc
        simp [competitorFinishSweep] at hc
      · simp [competitorFinishSweep]
  | cons c rest ih =>
      intro next hsync
      have hc0 := hsync c (List.mem_cons_self c rest)
      have hrest : ∀ x ∈ rest, x.finishTime.isSome = x.finishPosition.isSome :=
        fun x hx => hsync x (List.mem_cons_of_mem c hx)
      simp only [competitorFinishSweep]
      split
      · -- this competitor already has a finish time
        rename_i hfin
        obtain ⟨hsyncR, hpermR⟩ := ih next hrest
        rcases hp : c.finishPosition with _ | pc
        · rw [hfin, hp] at hc0
          simp at hc0
        · constructor
          · intro x hx
            rcases List.mem_cons.mp hx with rfl | hx'
            · exact hc0
            · exact hsyncR x hx'
          · simp only [List.filterMap_cons, hp, List.cons_append]
            exact hpermR.cons pc
      · rename_i hnfin
        have hpos : c.finishPosition = none := by
          rcases hp : c.finishPosition with _ | pc
          · rfl
          · rw [hp] at hc0
            simp at hc0
            exact absurd hc0 hnfin
        split
        · -- this competitor crosses the finish line now
          obtain ⟨hsyncR, hpermR⟩ := ih (next + 1) hrest
          have hle := competitorFinishSweep_counter_le fx now st rest (next + 1)
          constructor
          · intro x hx
            rcases List.mem_cons.mp hx with rfl | hx'
            · rfl
            · exact hsyncR x hx'
          · simp only [List.filterMap_cons, hpos]
            have harith : (competitorFinishSweep fx now st rest (next + 1)).2.1 - next =
                ((competitorFinishSweep fx now st rest (next + 1)).2.1 - (next + 1)) + 1 := by
              omega
            rw [harith, List.range'_succ]
            refine (hpermR.cons next).trans ?_
            exact (List.perm_middle).symm
        · -- this competitor stays on the track
          obtain ⟨hsyncR, hpermR⟩ := ih next hrest
          constructor
          · intro x hx
            rcases List.mem_cons.mp hx with rfl | hx'
            · exact hc0
            · exact hsyncR x hx'
          · simp only [List.filterMap_cons, hpos]
            exact hpermR

lemma updateCompetitors_filterMap_pos (s : SceneState) (t dt : ℚ) (vs : List ℚ) :
    (updateCompetitors s t dt vs).competitors.filterMap Competitor.finishPosition =
      s.competitors.filterMap Competitor.finishPosition := by
  rw [updateCompetitors_eq]
  dsimp only
  rw [List.filterMap_map]
  have hfuns : (Competitor.finishPosition ∘ fun p =>
      updateCompetitor s.geometry s.speedScale t dt (vs.getD p.1 0) p.2) =
      (Competitor.finishPosition ∘ Prod.snd) := by
    funext pr
    simp [Function.comp, updateCompetitor_finishPosition]
  rw [hfuns, ← List.filterMap_map, List.enum_map_snd]

lemma updateCompetitors_sync (s : SceneState) (t dt : ℚ) (vs : List ℚ)
    (h : ∀ c ∈ s.competitors, c.finishTime.isSome = c.finishPosition.isSome) :
    ∀ c ∈ (updateCompetitors s t dt vs).competitors,
      c.finishTime.isSome = c.finishPosition.isSome := by
  rw [updateCompetitors_eq]
  intro c hc
  rcases List.mem_map.mp hc with ⟨pr, hpr, rfl⟩
  rw [updateCompetitor_finishTime, updateCompetitor_finishPosition]
  have hsnd : pr.2 ∈ s.competitors.enum.map Prod.snd := List.mem_map_of_mem Prod.snd hpr
  rw [List.enum_map_snd] at hsnd
  exact h pr.2 hsnd

lemma stateInv_createScene (width : ℚ) (cpRatios : List ℚ) (pool : List FamilyMember)
    (draws : List ℚ) (scale : ℚ) : StateInv (createScene width cpRatios pool draws scale) := by
  refine ⟨le_refl 0, show (0 : ℚ) ≤ MAX_VELOCITY by norm_num [MAX_VELOCITY], le_refl 1,
    rfl, ?_, ?_, ?_⟩
  · intro c hc
    rcases List.mem_map.mp hc with ⟨pr, hpr, rfl⟩
    rfl
  · show (assignedPositions _).Perm _
    unfold assignedPositions createScene createCompetitors
    dsimp only
    rw [List.filterMap_map]
    have hnone : (Competitor.finishPosition ∘ fun p : FamilyMember × ℚ =>
        ({ x := (mkGeometry width cpRatios).rosieStartX, familyMember := p.1, speed := p.2,
           lastSpeedChangeTime := 0, finishTime := none,
           finishPosition := none } : Competitor)) = fun _ => (none : Option ℕ) := rfl
    rw [hnone]
    simp
  · show _ = _
    unfold createScene mkGeometry
    simp

lemma stateInv_updateCompetitors (s : SceneState) (t dt : ℚ) (vs : List ℚ)
    (h : StateInv s) : StateInv (updateCompetitors s t dt vs) := by
  refine ⟨h.vel_nonneg, h.vel_le, h.next_pos, h.rosie_sync,
    updateCompetitors_sync s t dt vs h.comp_sync, ?_, h.cp_len⟩
  show (assignedPositions _).Perm _
  unfold assignedPositions
  rw [updateCompetitors_filterMap_pos]
  exact h.contig

lemma stateInv_checkCompetitorFinishes (s : SceneState) (now : ℚ) (h : StateInv s) :
    StateInv (checkCompetitorFinishes s now).1 := by
  obtain ⟨g, hg⟩ := checkCompetitorFinishes_fst_eq s now
  rw [hg]
  obtain ⟨hsync, hperm⟩ := competitorFinishSweep_spec s.geometry.finishLineX now
    s.raceStartTime s.competitors s.nextFinishPosition h.comp_sync
  have hle := competitorFinishSweep_counter_le s.geometry.finishLineX now
    s.raceStartTime s.competitors s.nextFinishPosition
  refine ⟨h.vel_nonneg, h.vel_le, le_trans h.next_pos hle, h.rosie_sync, hsync, ?_, h.cp_len⟩
  show (assignedPositions _).Perm _
  unfold assignedPositions
  dsimp only
  have hnext := h.next_pos
  have key : List.range' 1 (s.nextFinishPosition - 1) ++
      List.range' s.nextFinishPosition
        ((competitorFinishSweep s.geometry.finishLineX now s.raceStartTime
          s.competitors s.nextFinishPosition).2.1 - s.nextFinishPosition) =
      List.range' 1 ((competitorFinishSweep s.geometry.finishLineX now s.raceStartTime
        s.competitors s.nextFinishPosition).2.1 - 1) := by
    have h1 := List.range'_append 1 (s.nextFinishPosition - 1)
      ((competitorFinishSweep s.geometry.finishLineX now s.raceStartTime
        s.competitors s.nextFinishPosition).2.1 - s.nextFinishPosition) 1
    have e1 : 1 + 1 * (s.nextFinishPosition - 1) = s.nextFinishPosition := by omega
    have e2 : (competitorFinishSweep s.geometry.finishLineX now s.raceStartTime
        s.competitors s.nextFinishPosition).2.1 - s.nextFinishPosition +
        (s.nextFinishPosition - 1) =
        (competitorFinishSweep s.geometry.finishLineX now s.raceStartTime
          s.competitors s.nextFinishPosition).2.1 - 1 := by
      omega
    rw [e1, e2] at h1
    exact h1
  refine (hperm.append_left s.rosieFinishPosition.toList).trans ?_
  rw [← List.append_assoc]
  rw [← key]
  exact h.contig.append_right _

lemma stateInv_checkForCheckpoint (s : SceneState) (h : StateInv s) :
    StateInv (checkForCheckpoint s).1 := by
  unfold checkForCheckpoint
  dsimp only
  refine ⟨?_, ?_, h.next_pos, h.rosie_sync, h.comp_sync, h.contig, ?_⟩
  · split
    · exact h.vel_nonneg
    · exact le_refl 0
  · split
    · exact h.vel_le
    · norm_num [MAX_VELOCITY]
  · show _ = _
    rw [checkpointSweep_length, List.length_zip, h.cp_len, Nat.min_self]

lemma stateInv_handleRosieFinish (s : SceneState) (now : ℚ) (h : StateInv s)
    (hpos : s.rosieFinishPosition = none) : StateInv (handleRosieFinish s now).1 := by
  obtain ⟨g, hg⟩ := handleRosieFinish_fst_eq s now
  rw [hg]
  refine ⟨le_refl 0, show (0 : ℚ) ≤ MAX_VELOCITY by norm_num [MAX_VELOCITY],
    Nat.le_add_left 1 s.nextFinishPosition, rfl, h.comp_sync, ?_, h.cp_len⟩
  show (assignedPositions _).Perm _
  unfold assignedPositions
  dsimp only
  have hcontig := h.contig
  unfold assignedPositions at hcontig
  rw [hpos] at hcontig
  simp only [Option.toList_none, List.nil_append] at hcontig
  have hnext := h.next_pos
  have e3 : s.nextFinishPosition + 1 - 1 = (s.nextFinishPosition - 1) + 1 := by omega
  rw [e3, List.range'_concat]
  have e4 : 1 + 1 * (s.nextFinishPosition - 1) = s.nextFinishPosition := by omega
  rw [e4]
  simp only [Option.toList_some, List.singleton_append]
  refine (hcontig.cons s.nextFinishPosition).trans ?_
  exact (List.perm_append_singleton _ _).symm

lemma stateInv_checkAllRacersFinished (s : SceneState) (h : StateInv s) :
    StateInv (checkAllRacersFinished s).1 := by
  obtain ⟨g, hg⟩ := checkAllRacersFinished_fst_eq s
  rw [hg]
  exact ⟨h.vel_nonneg, h.vel_le, h.next_pos, h.rosie_sync, h.comp_sync, h.contig, h.cp_len⟩

lemma StateInv.with_velocity (s : SceneState) (v : ℚ) (h : StateInv s)
    (h0 : 0 ≤ v) (h1 : v ≤ MAX_VELOCITY) : StateInv { s with velocity := v } :=
  ⟨h0, h1, h.next_pos, h.rosie_sync, h.comp_sync, h.contig, h.cp_len⟩

lemma StateInv.with_velocity_rosieX (s : SceneState) (v x : ℚ) (h : StateInv s)
    (h0 : 0 ≤ v) (h1 : v ≤ MAX_VELOCITY) :
    StateInv { s with velocity := v, rosieX := x } :=
  ⟨h0, h1, h.next_pos, h.rosie_sync, h.comp_sync, h.contig, h.cp_len⟩

lemma stateInv_update (s : SceneState) (time delta : ℚ) (vs : List ℚ) (now : ℚ)
    (h : StateInv s) : StateInv (update s time delta vs now).1 := by
  unfold update
  split
  · exact h
  · have h2 := stateInv_checkCompetitorFinishes (updateCompetitors s time (delta / 1000) vs)
      now (stateInv_updateCompetitors s time (delta / 1000) vs h)
    dsimp only
    split
    · exact h2
    · have hvf : (0 : ℚ) ≤ FRICTION := by norm_num [FRICTION]
      have hf1 : FRICTION ≤ 1 := by norm_num [FRICTION]
      have hnn : 0 ≤ (checkCompetitorFinishes (updateCompetitors s time (delta / 1000) vs)
          now).1.velocity * FRICTION := mul_nonneg h2.vel_nonneg hvf
      have hup : (checkCompetitorFinishes (updateCompetitors s time (delta / 1000) vs)
          now).1.velocity * FRICTION ≤ MAX_VELOCITY :=
        le_trans (mul_le_of_le_one_right h2.vel_nonneg hf1) h2.vel_le
      have hmax0 : (0 : ℚ) ≤ MAX_VELOCITY := by norm_num [MAX_VELOCITY]
      split
      · -- the snapped velocity is 0
        split
        · rename_i h0
          exact absurd h0 (lt_irrefl 0)
        · exact stateInv_checkAllRacersFinished _
            (StateInv.with_velocity _ 0 h2 (le_refl 0) hmax0)
      · -- the snapped velocity is the post-friction velocity
        split
        · -- the movement branch ran
          split
          · -- Rosie crossed the finish line this step
            rename_i hfin
            have hrtn := hfin.2
            rw [Option.isNone_iff_eq_none] at hrtn
            have hisnone : (checkCompetitorFinishes
                (updateCompetitors s time (delta / 1000) vs) now).1.rosieFinishTime
                  = none := hrtn
            have hrpn0 : (checkCompetitorFinishes
                (updateCompetitors s time (delta / 1000) vs) now).1.rosieFinishPosition
                  = none := by
              have hsy := h2.rosie_sync
              rw [hisnone] at hsy
              rcases hx : (checkCompetitorFinishes
                  (updateCompetitors s time (delta / 1000) vs)
                  now).1.rosieFinishPosition with _ | v0
              · rfl
              · rw [hx] at hsy
                simp at hsy
            exact stateInv_checkAllRacersFinished _
              (stateInv_handleRosieFinish _ now
                (stateInv_checkForCheckpoint _
                  (StateInv.with_velocity_rosieX _ _ _ h2 hnn hup)) hrpn0)
          · exact stateInv_checkAllRacersFinished _
              (stateInv_checkForCheckpoint _
                (StateInv.with_velocity_rosieX _ _ _ h2 hnn hup))
        · exact stateInv_checkAllRacersFinished _
            (StateInv.with_velocity _ _ h2 hnn hup)

lemma filterMap_pos_createCompetitors (g : TrackGeometry) (members : List FamilyMember)
    (draws : List ℚ) :
    (createCompetitors g members draws).filterMap Competitor.finishPosition = [] := by
  unfold createCompetitors
  rw [List.filterMap_map]
  have hnone : (Competitor.finishPosition ∘ fun p : FamilyMember × ℚ =>
      ({ x := g.rosieStartX, familyMember := p.1, speed := p.2, lastSpeedChangeTime := 0,
         finishTime := none, finishPosition := none } : Competitor)) =
      fun _ => (none : Option ℕ) := rfl
  rw [hnone]
  simp

lemma stateInv_handleTap (s : SceneState) (h : StateInv s) : StateInv (handleTap s).1 := by
  unfold handleTap startCountdown setGameState
  split
  · exact ⟨h.vel_nonneg, h.vel_le, h.next_pos, h.rosie_sync, h.comp_sync, h.contig, h.cp_len⟩
  · split
    · exact h
    · split
      · exact h
      · split
        · exact h
        · split
          · refine ⟨?_, ?_, h.next_pos, h.rosie_sync, h.comp_sync, h.contig, h.cp_len⟩
            · show (0 : ℚ) ≤ mathMin (s.velocity + TAP_VELOCITY_BOOST) MAX_VELOCITY
              unfold mathMin
              split
              · have hb : (0 : ℚ) ≤ TAP_VELOCITY_BOOST := by norm_num [TAP_VELOCITY_BOOST]
                linarith [h.vel_nonneg]
              · norm_num [MAX_VELOCITY]
            · show mathMin (s.velocity + TAP_VELOCITY_BOOST) MAX_VELOCITY ≤ MAX_VELOCITY
              unfold mathMin
              split
              · rename_i hle
                exact hle
              · exact le_refl MAX_VELOCITY
          · exact h

lemma stateInv_handleMathAnswer (s : SceneState) (correct : Bool) (timeTaken : ℚ)
    (h : StateInv s) : StateInv (handleMathAnswer s correct timeTaken) := by
  unfold handleMathAnswer
  dsimp only
  split
  · split
    · exact ⟨show (0 : ℚ) ≤ FAST_ANSWER_BOOST by norm_num [FAST_ANSWER_BOOST],
        show FAST_ANSWER_BOOST ≤ MAX_VELOCITY by norm_num [FAST_ANSWER_BOOST, MAX_VELOCITY],
        h.next_pos, h.rosie_sync, h.comp_sync, h.contig, h.cp_len⟩
    · exact ⟨show (0 : ℚ) ≤ SLOW_ANSWER_BOOST by norm_num [SLOW_ANSWER_BOOST],
        show SLOW_ANSWER_BOOST ≤ MAX_VELOCITY by norm_num [SLOW_ANSWER_BOOST, MAX_VELOCITY],
        h.next_pos, h.rosie_sync, h.comp_sync, h.contig, h.cp_len⟩
  · exact ⟨h.vel_nonneg, h.vel_le, h.next_pos, h.rosie_sync, h.comp_sync, h.contig, h.cp_len⟩

lemma handleSettingsUpdated_filterMap_pos (s : SceneState) (scale : ℚ) :
    (handleSettingsUpdated s scale).competitors.filterMap Competitor.finishPosition =
      s.competitors.filterMap Competitor.finishPosition := by
  unfold handleSettingsUpdated
  dsimp only
  rw [List.filterMap_map]
  congr 1

lemma stateInv_handleSettingsUpdated (s : SceneState) (scale : ℚ) (h : StateInv s) :
    StateInv (handleSettingsUpdated s scale) := by
  refine ⟨h.vel_nonneg, h.vel_le, h.next_pos, h.rosie_sync, ?_, ?_, h.cp_len⟩
  · intro c hc
    unfold handleSettingsUpdated at hc
    dsimp only at hc
    rcases List.mem_map.mp hc with ⟨c0, hc0, rfl⟩
    exact h.comp_sync c0 hc0
  · show (assignedPositions _).Perm _
    unfold assignedPositions
    rw [handleSettingsUpdated_filterMap_pos]
    exact h.contig

lemma stateInv_handleRestart (s : SceneState) (pool : List FamilyMember) (draws : List ℚ) :
    StateInv (handleRestart s pool draws).1 := by
  unfold handleRestart
  dsimp only
  refine ⟨le_refl 0, show (0 : ℚ) ≤ MAX_VELOCITY by norm_num [MAX_VELOCITY], le_refl 1,
    rfl, ?_, ?_, ?_⟩
  · intro c hc
    unfold createCompetitors at hc
    rcases List.mem_map.mp hc with ⟨pr, hpr, rfl⟩
    rfl
  · show (assignedPositions _).Perm _
    unfold assignedPositions
    rw [filterMap_pos_createCompetitors]
    simp
  · show _ = _
    simp

lemma stateInv_stepEvent (s : SceneState) (e : REvent) (h : StateInv s) :
    StateInv (stepEvent s e).1 := by
  cases e with
  | tap => exact stateInv_handleTap s h
  | answer correct timeTaken => exact stateInv_handleMathAnswer s correct timeTaken h
  | restart pool draws => exact stateInv_handleRestart s pool draws
  | settings scale => exact stateInv_handleSettingsUpdated s scale h
  | countdownDone now =>
      simp only [stepEvent]
      split
      · unfold startRacing setGameState
        exact ⟨h.vel_nonneg, h.vel_le, h.next_pos, h.rosie_sync, h.comp_sync, h.contig,
          h.cp_len⟩
      · exact h
  | frame time delta vs now => exact stateInv_update s time delta vs now h

lemma stateInv_reachable {init s : SceneState} (hinit : StateInv init)
    (hr : Reachable init s) : StateInv s := by
  induction hr with
  | refl => exact hinit
  | step e _ ih => exact stateInv_stepEvent _ e ih

lemma competitorFinishSweep_getD_some (fx now st : ℚ) :
    ∀ (cs : List Competitor) (next j p : ℕ),
      (∀ c ∈ cs, c.finishTime.isSome = c.finishPosition.isSome) →
      ((cs.getD j defaultCompetitor)).finishPosition = some p →
      (((competitorFinishSweep fx now st cs next).1.getD j
        defaultCompetitor)).finishPosition = some p := by
  intro cs
  induction cs with
  | nil =>
      intro next j p hsync hp
      rw [List.getD] at hp
      simp [defaultCompetitor] at hp
  | cons c rest ih =>
      intro next j p hsync hp
      have hc0 := hsync c (List.mem_cons_self c rest)
      have hrest : ∀ x ∈ rest, x.finishTime.isSome = x.finishPosition.isSome :=
        fun x hx => hsync x (List.mem_cons_of_mem c hx)
      simp only [competitorFinishSweep]
      split
      · cases j with
        | zero => simpa using hp
        | succ j' =>
            simp only [List.getD_cons_succ] at hp ⊢
            exact ih next j' p hrest hp
      · rename_i hnfin
        have hposn : c.finishPosition = none := by
          rcases hq : c.finishPosition with _ | v
          · rfl
          · rw [hq] at hc0
            simp at hc0
            exact absurd hc0 hnfin
        split
        · cases j with
          | zero =>
              rw [List.getD_cons_zero] at hp
              rw [hposn] at hp
              cases hp
          | succ j' =>
              simp only [List.getD_cons_succ] at hp ⊢
              exact ih (next + 1) j' p hrest hp
        · cases j with
          | zero => simpa using hp
          | succ j' =>
              simp only [List.getD_cons_succ] at hp ⊢
              exact ih next j' p hrest hp

lemma update_preserves_rosie_assigned (s : SceneState) (hinv : StateInv s)
    (time delta : ℚ) (vs : List ℚ) (now : ℚ) (p : ℕ)
    (hp : s.rosieFinishPosition = some p) :
    (update s time delta vs now).1.rosieFinishPosition = some p := by
  have hts : s.rosieFinishTime.isSome = true := by
    rw [hinv.rosie_sync, hp]
    rfl
  unfold update
  split
  · exact hp
  · dsimp only
    obtain ⟨g2, hg2⟩ := checkCompetitorFinishes_fst_eq
      (updateCompetitors s time (delta / 1000) vs) now
    rw [hg2]
    split
    · exact hp
    · split
      · split
        · rename_i h0
          exact absurd h0 (lt_irrefl 0)
        · rw [checkAllRacersFinished_rosieFinishPosition]
          exact hp
      · split
        · split
          · rename_i hfin
            exfalso
            have hn : s.rosieFinishTime = none := by
              have h2 := hfin.2
              rwa [Option.isNone_iff_eq_none] at h2
            rw [hn] at hts
            simp at hts
          · rw [checkAllRacersFinished_rosieFinishPosition]
            exact hp
        · rw [checkAllRacersFinished_rosieFinishPosition]
          exact hp

lemma update_preserves_comp_assigned (s : SceneState) (hinv : StateInv s)
    (time delta : ℚ) (vs : List ℚ) (now : ℚ) (j p : ℕ)
    (hp : ((s.competitors.getD j defaultCompetitor)).finishPosition = some p) :
    (((update s time delta vs now).1.competitors.getD j
      defaultCompetitor)).finishPosition = some p := by
  unfold update
  split
  · exact hp
  · dsimp only
    have hp1 : (((updateCompetitors s time (delta / 1000) vs).competitors.getD j
        defaultCompetitor)).finishPosition = some p := by
      rw [updateCompetitors_getD_finishPosition]
      exact hp
    have hsync1 := updateCompetitors_sync s time (delta / 1000) vs hinv.comp_sync
    have hp2 := competitorFinishSweep_getD_some
      (updateCompetitors s time (delta / 1000) vs).geometry.finishLineX now
      (updateCompetitors s time (delta / 1000) vs).raceStartTime
      (updateCompetitors s time (delta / 1000) vs).competitors
      (updateCompetitors s time (delta / 1000) vs).nextFinishPosition j p hsync1 hp1
    obtain ⟨g2, hg2⟩ := checkCompetitorFinishes_fst_eq
      (updateCompetitors s time (delta / 1000) vs) now
    rw [hg2]
    split
    · exact hp2
    · split
      · split
        · rename_i h0
          exact absurd h0 (lt_irrefl 0)
        · rw [checkAllRacersFinished_competitors]
          exact hp2
      · split
        · split
          · rw [checkAllRacersFinished_competitors, handleRosieFinish_competitors]
            exact hp2
          · rw [checkAllRacersFinished_competitors]
            exact hp2
        · rw [checkAllRacersFinished_competitors]
          exact hp2

lemma filterMap_pos_length_of_all_some (cs : List Competitor)
    (h : ∀ c ∈ cs, c.finishPosition.isSome) :
    (cs.filterMap Competitor.finishPosition).length = cs.length := by
  induction cs with
  | nil => rfl
  | cons c rest ih =>
      have hc := h c (List.mem_cons_self c rest)
      rcases hp : c.finishPosition with _ | v
      · rw [hp] at hc
        simp at hc
      · simp [List.filterMap_cons, hp,
          ih (fun x hx => h x (List.mem_cons_of_mem c hx))]

lemma checkAllRacersFinished_passedCheckpoints (s : SceneState) :
    (checkAllRacersFinished s).1.passedCheckpoints = s.passedCheckpoints := by
  obtain ⟨g, hg⟩ := checkAllRacersFinished_fst_eq s
  rw [hg]

lemma checkAllRacersFinished_rosieX (s : SceneState) :
    (checkAllRacersFinished s).1.rosieX = s.rosieX := by
  obtain ⟨g, hg⟩ := checkAllRacersFinished_fst_eq s
  rw [hg]

lemma handleRosieFinish_passedCheckpoints (s : SceneState) (now : ℚ) :
    (handleRosieFinish s now).1.passedCheckpoints = s.passedCheckpoints := by
  obtain ⟨g, hg⟩ := handleRosieFinish_fst_eq s now
  rw [hg]

lemma handleRosieFinish_rosieX (s : SceneState) (now : ℚ) :
    (handleRosieFinish s now).1.rosieX = s.rosieX := by
  obtain ⟨g, hg⟩ := handleRosieFinish_fst_eq s now
  rw [hg]

/-! C5: finish positions are contiguous and assigned at most once. -/

/-- C5: in every reachable state the finish positions assigned so far (Rosie's
and every AI competitor's) are exactly the contiguous block 1..k with no
duplicates and no gaps, where k + 1 is the value of the single shared counter;
k never exceeds the racer count, equals it exactly when everyone has finished,
and a simulation step never changes an already-assigned finish position —
reaching the finish line again is a no-op for that racer. -/
theorem finish_positions_contiguous (width : ℚ) (cpRatios : List ℚ)
    (pool : List FamilyMember) (draws : List ℚ) (scale : ℚ) (s : SceneState)
    (hreach : Reachable (createScene width cpRatios pool draws scale) s) :
    (assignedPositions s).Perm (List.range' 1 (s.nextFinishPosition - 1)) ∧
    s.nextFinishPosition - 1 ≤ 1 + s.competitors.length ∧
    ((s.rosieFinishPosition.isSome ∧ ∀ c ∈ s.competitors, c.finishPosition.isSome) →
      s.nextFinishPosition - 1 = 1 + s.competitors.length) ∧
    (∀ (time delta : ℚ) (vs : List ℚ) (now : ℚ),
      (∀ p, s.rosieFinishPosition = some p →
        (stepEvent s (REvent.frame time delta vs now)).1.rosieFinishPosition = some p) ∧
      (∀ j p, ((s.competitors.getD j defaultCompetitor)).finishPosition = some p →
        (((stepEvent s (REvent.frame time delta vs now)).1.competitors.getD j
          defaultCompetitor)).finishPosition = some p)) := by
  have hinv := stateInv_reachable (stateInv_createScene width cpRatios pool draws scale)
    hreach
  refine ⟨hinv.contig, ?_, ?_, ?_⟩
  · have hlen := hinv.contig.length_eq
    rw [List.length_range'] at hlen
    have h1 : (assignedPositions s).length ≤ 1 + s.competitors.length := by
      unfold assignedPositions
      rw [List.length_append]
      have hfm := List.length_filterMap_le Competitor.finishPosition s.competitors
      have htl : s.rosieFinishPosition.toList.length ≤ 1 := by
        rcases s.rosieFinishPosition <;> simp
      omega
    omega
  · rintro ⟨hrs, hcs⟩
    have hlen := hinv.contig.length_eq
    rw [List.length_range'] at hlen
    have h1 : (assignedPositions s).length = 1 + s.competitors.length := by
      unfold assignedPositions
      rw [List.length_append, filterMap_pos_length_of_all_some s.competitors hcs]
      rcases hx : s.rosieFinishPosition with _ | v
      · rw [hx] at hrs
        simp at hrs
      · simp
    omega
  · intro time delta vs now
    exact ⟨fun p hp => update_preserves_rosie_assigned s hinv time delta vs now p hp,
      fun j p hp => update_preserves_comp_assigned s hinv time delta vs now j p hp⟩

/-- Witness for `finish_positions_contiguous` at the reachable state
`demoRosieFinished` (Rosie holds position 1, the counter is at 2). -/
theorem finish_positions_contiguous_witness :
    (assignedPositions demoRosieFinished).Perm
      (List.range' 1 (demoRosieFinished.nextFinishPosition - 1)) ∧
    demoRosieFinished.nextFinishPosition - 1 ≤ 1 + demoRosieFinished.competitors.length := by
  have h := finish_positions_contiguous 100 POSITION_RATIOS [demoMember] [20] SPEED_SCALE
    demoRosieFinished (reachable_applyEvents demoInit
      ([REvent.tap, REvent.countdownDone 100] ++ List.replicate 20 REvent.tap ++
        [REvent.frame 200 1000 [] 5000]))
  exact ⟨h.1, h.2.1⟩

/-! C6: velocity bounds and tap behaviour. -/

/-- C6 counterexample: in the reachable state `demoRosieFinished` the race is
still `racing` (an AI competitor is still on the track) but Rosie has already
finished; a tap in this state is ignored and leaves the velocity at 0, instead
of setting it to min(velocity + boost, max) = 15 as the claim demands for
every tap during `racing`. -/
theorem tap_after_finish_ignored_cex :
    demoRosieFinished.gameState = GState.racing ∧
    demoRosieFinished.hasFinished = true ∧
    demoRosieFinished.velocity = 0 ∧
    (stepEvent demoRosieFinished REvent.tap).1.velocity = 0 ∧
    mathMin (demoRosieFinished.velocity + TAP_VELOCITY_BOOST) MAX_VELOCITY = 15 ∧
    (stepEvent demoRosieFinished REvent.tap).1.velocity ≠
      mathMin (demoRosieFinished.velocity + TAP_VELOCITY_BOOST) MAX_VELOCITY := by
  decide

/-- C6 amended: along every event sequence from a freshly created scene the
controlled racer's velocity stays within [0, MAX_VELOCITY]; and a tap during
`racing` sets the velocity to min(velocity + tap boost, maximum velocity)
provided the controlled racer has not already finished and is not paused at a
checkpoint (in those situations, and in every other state, the tap is
ignored). -/
theorem velocity_bounds_and_guarded_tap (width : ℚ) (cpRatios : List ℚ)
    (pool : List FamilyMember) (draws : List ℚ) (scale : ℚ) (s : SceneState)
    (hreach : Reachable (createScene width cpRatios pool draws scale) s) :
    (0 ≤ s.velocity ∧ s.velocity ≤ MAX_VELOCITY) ∧
    (s.gameState = GState.racing → s.isPaused = false → s.hasFinished = false →
      (stepEvent s REvent.tap).1.velocity =
        mathMin (s.velocity + TAP_VELOCITY_BOOST) MAX_VELOCITY) := by
  have hinv := stateInv_reachable (stateInv_createScene width cpRatios pool draws scale)
    hreach
  refine ⟨⟨hinv.vel_nonneg, hinv.vel_le⟩, ?_⟩
  intro hstate hnp hfin
  simp only [stepEvent]
  unfold handleTap
  rw [if_neg (by simp [hstate]), if_neg (by simp [hstate]),
    if_neg (by simp [hstate, hfin]), if_neg (by simp [hnp]), if_pos hstate]

/-- Witness for `velocity_bounds_and_guarded_tap` at the reachable state
`demoRacing` (racing with velocity 15 and nobody finished). -/
theorem velocity_bounds_and_guarded_tap_witness :
    (0 ≤ demoRacing.velocity ∧ demoRacing.velocity ≤ MAX_VELOCITY) ∧
    (stepEvent demoRacing REvent.tap).1.velocity =
      mathMin (demoRacing.velocity + TAP_VELOCITY_BOOST) MAX_VELOCITY := by
  have h := velocity_bounds_and_guarded_tap 100 POSITION_RATIOS [demoMember] [20]
    SPEED_SCALE demoRacing (reachable_applyEvents demoInit
      [REvent.tap, REvent.countdownDone 100, REvent.tap])
  exact ⟨h.1, h.2 (by decide) (by decide) (by decide)⟩

/-- Witness for `restart_resets_race`: restarting from the reachable
checkpoint-paused state. -/
theorem restart_resets_race_witness :
    (stepEvent demoPausedAtCheckpoint (REvent.restart [demoMember] [20])).1.gameState
      = GState.ready ∧
    (stepEvent demoPausedAtCheckpoint (REvent.restart [demoMember] [20])).1.velocity = 0 ∧
    (stepEvent demoPausedAtCheckpoint
      (REvent.restart [demoMember] [20])).1.nextFinishPosition = 1 := by
  have h := restart_resets_race demoPausedAtCheckpoint [demoMember] [20]
    (List.Forall₂.cons (by decide) List.Forall₂.nil)
  exact ⟨h.1, h.2.1, h.2.2.2.2.2.1⟩

/-! C7: checkpoint passed flags are monotone within a race lifetime. -/

/-- The passed flags produced by checkForCheckpoint are the sweep result. -/
lemma checkForCheckpoint_fst_passedCheckpoints (s : SceneState) :
    (checkForCheckpoint s).1.passedCheckpoints =
      (checkpointSweep s.rosieX 0
        (s.geometry.checkpointPositions.zip s.passedCheckpoints)).1 := rfl

/-- checkForCheckpoint does not move Rosie. -/
lemma checkForCheckpoint_fst_rosieX (s : SceneState) :
    (checkForCheckpoint s).1.rosieX = s.rosieX := rfl

/-- C7: in every reachable state, a checkpoint's passed flag never reverts
under any event except the restart signal (which resets every flag to false,
starting a new race lifetime), and whenever a flag flips from false to true
the controlled racer's updated position has reached or exceeded that
checkpoint's position. -/
theorem checkpoint_passed_monotone (width : ℚ) (cpRatios : List ℚ)
    (pool : List FamilyMember) (draws : List ℚ) (scale : ℚ) (s : SceneState)
    (hreach : Reachable (createScene width cpRatios pool draws scale) s) :
    (∀ (e : REvent), e.isRestart = false → ∀ i : ℕ,
      s.passedCheckpoints.get? i = some true →
      (stepEvent s e).1.passedCheckpoints.get? i = some true) ∧
    (∀ (shuffledPool : List FamilyMember) (draws2 : List ℚ),
      ∀ b ∈ (stepEvent s (REvent.restart shuffledPool draws2)).1.passedCheckpoints,
        b = false) ∧
    (∀ (e : REvent) (i : ℕ) (cpX : ℚ),
      s.geometry.checkpointPositions.get? i = some cpX →
      s.passedCheckpoints.get? i = some false →
      (stepEvent s e).1.passedCheckpoints.get? i = some true →
      cpX ≤ (stepEvent s e).1.rosieX) := by
  have hinv := stateInv_reachable (stateInv_createScene width cpRatios pool draws scale)
    hreach
  refine ⟨?_, ?_, ?_⟩
  · intro e hres i hi
    cases e with
    | tap =>
        simp only [stepEvent]
        unfold handleTap startCountdown setGameState
        split
        · exact hi
        · split
          · exact hi
          · split
            · exact hi
            · split
              · exact hi
              · split
                · exact hi
                · exact hi
    | answer correct timeTaken =>
        simp only [stepEvent]
        unfold handleMathAnswer
        dsimp only
        split
        · split
          · exact hi
          · exact hi
        · exact hi
    | settings scale2 => exact hi
    | countdownDone now =>
        simp only [stepEvent]
        split
        · exact hi
        · exact hi
    | restart sh dr => simp [REvent.isRestart] at hres
    | frame time delta vs now =>
        have hkey : ∀ x : ℚ, (checkpointSweep x 0
            (s.geometry.checkpointPositions.zip s.passedCheckpoints)).1.get? i
              = some true := by
          intro x
          obtain ⟨hlt, _⟩ := List.get?_eq_some.mp hi
          rcases hcp2 : s.geometry.checkpointPositions.get? i with _ | cpX2
          · exfalso
            rw [List.get?_eq_none] at hcp2
            have := hinv.cp_len
            omega
          · have hzip : (s.geometry.checkpointPositions.zip
                s.passedCheckpoints).get? i = some (cpX2, true) := by
              rw [List.get?_zip_eq_some]
              exact ⟨hcp2, hi⟩
            have hch := checkpointSweep_get? x
              (s.geometry.checkpointPositions.zip s.passedCheckpoints) 0 i
              (cpX2, true) hzip
            simpa using hch
        simp only [stepEvent]
        unfold update
        split
        · exact hi
        · dsimp only
          obtain ⟨g2, hg2⟩ := checkCompetitorFinishes_fst_eq
            (updateCompetitors s time (delta / 1000) vs) now
          rw [hg2]
          simp only [updateCompetitors_eq]
          split
          · exact hi
          · split
            · split
              · rename_i h0
                exact absurd h0 (lt_irrefl 0)
              · rw [checkAllRacersFinished_passedCheckpoints]
                exact hi
            · split
              · split
                · rw [checkAllRacersFinished_passedCheckpoints,
                    handleRosieFinish_passedCheckpoints,
                    checkForCheckpoint_fst_passedCheckpoints]
                  exact hkey _
                · rw [checkAllRacersFinished_passedCheckpoints,
                    checkForCheckpoint_fst_passedCheckpoints]
                  exact hkey _
              · rw [checkAllRacersFinished_passedCheckpoints]
                exact hi
  · intro shuffledPool draws2 b hb
    simp only [stepEvent, handleRestart] at hb
    rcases List.mem_map.mp hb with ⟨_, _, rfl⟩
    rfl
  · intro e i cpX hcp hpre hpost
    cases e with
    | tap =>
        exfalso
        revert hpost
        simp only [stepEvent]
        unfold handleTap startCountdown setGameState
        split
        · intro hpost
          have hbad := hpre.symm.trans hpost
          simp at hbad
        · split
          · intro hpost
            have hbad := hpre.symm.trans hpost
            simp at hbad
          · split
            · intro hpost
              have hbad := hpre.symm.trans hpost
              simp at hbad
            · split
              · intro hpost
                have hbad := hpre.symm.trans hpost
                simp at hbad
              · split
                · intro hpost
                  have hbad := hpre.symm.trans hpost
                  simp at hbad
                · intro hpost
                  have hbad := hpre.symm.trans hpost
                  simp at hbad
    | answer correct timeTaken =>
        exfalso
        revert hpost
        simp only [stepEvent]
        unfold handleMathAnswer
        dsimp only
        split
        · split
          · intro hpost
            have hbad := hpre.symm.trans hpost
            simp at hbad
          · intro hpost
            have hbad := hpre.symm.trans hpost
            simp at hbad
        · intro hpost
          have hbad := hpre.symm.trans hpost
          simp at hbad
    | settings scale2 =>
        exfalso
        have hx : s.passedCheckpoints.get? i = some true := hpost
        have hbad := hpre.symm.trans hx
        simp at hbad
    | countdownDone now =>
        exfalso
        revert hpost
        simp only [stepEvent]
        split
        · intro hpost
          have hbad := hpre.symm.trans hpost
          simp at hbad
        · intro hpost
          have hbad := hpre.symm.trans hpost
          simp at hbad
    | restart sh dr =>
        exfalso
        simp only [stepEvent, handleRestart] at hpost
        rw [List.get?_map] at hpost
        cases hval : s.geometry.checkpointPositions.get? i <;>
          rw [hval] at hpost <;> simp at hpost
    | frame time delta vs now =>
        revert hpost
        simp only [stepEvent]
        unfold update
        split
        · intro hpost
          exfalso
          have hbad := hpre.symm.trans hpost
          simp at hbad
        · dsimp only
          obtain ⟨g2, hg2⟩ := checkCompetitorFinishes_fst_eq
            (updateCompetitors s time (delta / 1000) vs) now
          rw [hg2]
          simp only [updateCompetitors_eq]
          have hzip : (s.geometry.checkpointPositions.zip
              s.passedCheckpoints).get? i = some (cpX, false) := by
            rw [List.get?_zip_eq_some]
            exact ⟨hcp, hpre⟩
          have hch : ∀ x : ℚ, (checkpointSweep x 0
              (s.geometry.checkpointPositions.zip s.passedCheckpoints)).1.get? i
                = some (false || decide (cpX ≤ x)) := fun x =>
            checkpointSweep_get? x
              (s.geometry.checkpointPositions.zip s.passedCheckpoints) 0 i
              (cpX, false) hzip
          split
          · intro hpost
            exfalso
            have hbad := hpre.symm.trans hpost
            simp at hbad
          · split
            · split
              · rename_i h0
                exact absurd h0 (lt_irrefl 0)
              · rw [checkAllRacersFinished_passedCheckpoints]
                intro hpost
                exfalso
                have hbad := hpre.symm.trans hpost
                simp at hbad
            · split
              · split
                · rw [checkAllRacersFinished_passedCheckpoints,
                    handleRosieFinish_passedCheckpoints,
                    checkForCheckpoint_fst_passedCheckpoints,
                    checkAllRacersFinished_rosieX, handleRosieFinish_rosieX,
                    checkForCheckpoint_fst_rosieX]
                  intro hpost
                  have hbad := (hch _).symm.trans hpost
                  simp only [Option.some.injEq, Bool.false_or] at hbad
                  exact of_decide_eq_true hbad
                · rw [checkAllRacersFinished_passedCheckpoints,
                    checkForCheckpoint_fst_passedCheckpoints,
                    checkAllRacersFinished_rosieX, checkForCheckpoint_fst_rosieX]
                  intro hpost
                  have hbad := (hch _).symm.trans hpost
                  simp only [Option.some.injEq, Bool.false_or] at hbad
                  exact of_decide_eq_true hbad
              · rw [checkAllRacersFinished_passedCheckpoints]
                intro hpost
                exfalso
                have hbad := hpre.symm.trans hpost
                simp at hbad

/-- Witness for `checkpoint_passed_monotone` at the reachable paused state:
after the checkpoint frame the first flag is set; both the monotonicity and
the flip bound are exercised at index 0. -/
theorem checkpoint_passed_monotone_witness :
    ((stepEvent demoPausedAtCheckpoint REvent.tap).1.passedCheckpoints.get? 0
      = some true) ∧
    ((98 : ℚ) / 3 ≤ (stepEvent demoFastRacing demoCheckpointFrame).1.rosieX) := by
  have h1 := checkpoint_passed_monotone 100 POSITION_RATIOS [demoMember] [20] SPEED_SCALE
    demoPausedAtCheckpoint (reachable_applyEvents demoInit
      [REvent.tap, REvent.countdownDone 100, REvent.tap, REvent.tap, REvent.tap,
        demoCheckpointFrame])
  have h2 := checkpoint_passed_monotone 100 POSITION_RATIOS [demoMember] [20] SPEED_SCALE
    demoFastRacing (reachable_applyEvents demoInit
      [REvent.tap, REvent.countdownDone 100, REvent.tap, REvent.tap, REvent.tap])
  exact ⟨h1.1 REvent.tap (by decide) 0 (by decide),
    h2.2.2 demoCheckpointFrame 0 (98 / 3) (by decide) (by decide) (by decide)⟩


/-! C10: AI speeds stay inside the scaled profile range. -/

/-- Phaser.Math.Clamp lands inside [lo, hi] whenever the interval is
nonempty. -/
lemma clamp_mem (value lo hi : ℚ) (h : lo ≤ hi) :
    lo ≤ clamp value lo hi ∧ clamp value lo hi ≤ hi := by
  unfold clamp mathMax mathMin
  split_ifs <;> constructor <;> linarith

/-- The scaled minimum never exceeds the scaled maximum for a profile with
sane base speeds and a nonnegative scale. -/
lemma getMinSpeed_le_getMaxSpeed (m : FamilyMember) (scale : ℚ) (h0 : 0 ≤ scale)
    (h1 : 0 ≤ m.baseMinSpeed) (h2 : m.baseMinSpeed ≤ m.baseMaxSpeed) :
    getMinSpeed m scale ≤ getMaxSpeed m scale := by
  unfold getMinSpeed getMaxSpeed VARIANCE_FACTOR
  have hmin : 0 ≤ m.baseMinSpeed * scale := mul_nonneg h1 h0
  have hle : m.baseMinSpeed * scale ≤ m.baseMaxSpeed * scale :=
    mul_le_mul_of_nonneg_right h2 h0
  nlinarith

/-- Competitors created from draws satisfying the range bound carry speeds
inside their scaled ranges. -/
lemma createCompetitors_speed_range (g : TrackGeometry) (members : List FamilyMember)
    (draws : List ℚ) (scale : ℚ)
    (hf : List.Forall₂ (fun m d =>
        0 ≤ m.baseMinSpeed ∧ m.baseMinSpeed ≤ m.baseMaxSpeed ∧
        getMinSpeed m scale ≤ d ∧ d ≤ getMaxSpeed m scale) members draws) :
    ∀ c ∈ createCompetitors g members draws,
      0 ≤ c.familyMember.baseMinSpeed ∧
      c.familyMember.baseMinSpeed ≤ c.familyMember.baseMaxSpeed ∧
      getMinSpeed c.familyMember scale ≤ c.speed ∧
      c.speed ≤ getMaxSpeed c.familyMember scale := by
  intro c hc
  unfold createCompetitors at hc
  obtain ⟨⟨m, d⟩, hp, rfl⟩ := List.mem_map.mp hc
  exact (List.forall₂_iff_zip.mp hf).2 hp

/-- The per-competitor update keeps the speed inside the scaled range: it is
either left alone or re-clamped after the periodic nudge. -/
lemma updateCompetitor_speed_range (g : TrackGeometry) (scale t dt variation : ℚ)
    (c : Competitor) (h0 : 0 ≤ scale) (h1 : 0 ≤ c.familyMember.baseMinSpeed)
    (h2 : c.familyMember.baseMinSpeed ≤ c.familyMember.baseMaxSpeed)
    (h3 : getMinSpeed c.familyMember scale ≤ c.speed)
    (h4 : c.speed ≤ getMaxSpeed c.familyMember scale) :
    getMinSpeed c.familyMember scale ≤ (updateCompetitor g scale t dt variation c).speed ∧
    (updateCompetitor g scale t dt variation c).speed ≤ getMaxSpeed c.familyMember scale := by
  unfold updateCompetitor
  split
  · exact ⟨h3, h4⟩
  · dsimp only
    split
    · dsimp only
      split
      · exact clamp_mem _ _ _ (getMinSpeed_le_getMaxSpeed c.familyMember scale h0 h1 h2)
      · exact ⟨h3, h4⟩
    · split
      · exact clamp_mem _ _ _ (getMinSpeed_le_getMaxSpeed c.familyMember scale h0 h1 h2)
      · exact ⟨h3, h4⟩

/-- updateCompetitors preserves the speed-range invariant. -/
lemma speedInv_updateCompetitors (s : SceneState) (t dt : ℚ) (vs : List ℚ)
    (h : SpeedInv s) : SpeedInv (updateCompetitors s t dt vs) := by
  refine ⟨h.1, ?_⟩
  intro c2 hc2
  simp only [updateCompetitors_eq] at hc2 ⊢
  obtain ⟨⟨i, cc⟩, hp, rfl⟩ := List.mem_map.mp hc2
  dsimp only
  have hmem : cc ∈ s.competitors := by
    obtain ⟨h1, h2, h3⟩ := List.mem_enumFrom hp
    rw [h3]
    apply List.getElem_mem
  obtain ⟨hb0, hb1, hl, hr⟩ := h.2 cc hmem
  have hfam := updateCompetitor_familyMember s.geometry s.speedScale t dt
    (vs.getD i 0) cc
  have hrange := updateCompetitor_speed_range s.geometry s.speedScale t dt
    (vs.getD i 0) cc h.1 hb0 hb1 hl hr
  rw [hfam]
  exact ⟨hb0, hb1, hrange.1, hrange.2⟩

/-- The competitor-finish sweep only rewrites finish bookkeeping: every output
competitor keeps the speed and profile of an input competitor. -/
lemma competitorFinishSweep_mem_speed (fx now st : ℚ) :
    ∀ (cs : List Competitor) (next : ℕ) (c2 : Competitor),
      c2 ∈ (competitorFinishSweep fx now st cs next).1 →
      ∃ c ∈ cs, c2.speed = c.speed ∧ c2.familyMember = c.familyMember := by
  intro cs
  induction cs with
  | nil => intro next c2 h; simp [competitorFinishSweep] at h
  | cons c rest ih =>
      intro next c2 h
      unfold competitorFinishSweep at h
      split at h
      · dsimp only at h
        rcases List.mem_cons.mp h with h2 | h2
        · exact ⟨c, List.mem_cons_self c rest, by rw [h2], by rw [h2]⟩
        · obtain ⟨d, hd, hsp, hfm⟩ := ih next c2 h2
          exact ⟨d, List.mem_cons_of_mem c hd, hsp, hfm⟩
      · split at h
        · dsimp only at h
          rcases List.mem_cons.mp h with h2 | h2
          · exact ⟨c, List.mem_cons_self c rest, by rw [h2], by rw [h2]⟩
          · obtain ⟨d, hd, hsp, hfm⟩ := ih (next + 1) c2 h2
            exact ⟨d, List.mem_cons_of_mem c hd, hsp, hfm⟩
        · dsimp only at h
          rcases List.mem_cons.mp h with h2 | h2
          · exact ⟨c, List.mem_cons_self c rest, by rw [h2], by rw [h2]⟩
          · obtain ⟨d, hd, hsp, hfm⟩ := ih next c2 h2
            exact ⟨d, List.mem_cons_of_mem c hd, hsp, hfm⟩

/-- checkCompetitorFinishes preserves the speed-range invariant. -/
lemma speedInv_checkCompetitorFinishes (s : SceneState) (now : ℚ) (h : SpeedInv s) :
    SpeedInv (checkCompetitorFinishes s now).1 := by
  obtain ⟨g, hg⟩ := checkCompetitorFinishes_fst_eq s now
  rw [hg]
  refine ⟨h.1, ?_⟩
  intro c2 hc2
  obtain ⟨c, hc, hsp, hfm⟩ := competitorFinishSweep_mem_speed s.geometry.finishLineX now
    s.raceStartTime s.competitors s.nextFinishPosition c2 hc2
  obtain ⟨hb0, hb1, hl, hr⟩ := h.2 c hc
  rw [hfm, hsp]
  exact ⟨hb0, hb1, hl, hr⟩

/-- checkForCheckpoint preserves the speed-range invariant. -/
lemma speedInv_checkForCheckpoint (s : SceneState) (h : SpeedInv s) :
    SpeedInv (checkForCheckpoint s).1 := ⟨h.1, h.2⟩

/-- handleRosieFinish preserves the speed-range invariant. -/
lemma speedInv_handleRosieFinish (s : SceneState) (now : ℚ) (h : SpeedInv s) :
    SpeedInv (handleRosieFinish s now).1 := by
  obtain ⟨g, hg⟩ := handleRosieFinish_fst_eq s now
  rw [hg]
  exact ⟨h.1, h.2⟩

/-- checkAllRacersFinished preserves the speed-range invariant. -/
lemma speedInv_checkAllRacersFinished (s : SceneState) (h : SpeedInv s) :
    SpeedInv (checkAllRacersFinished s).1 := by
  obtain ⟨g, hg⟩ := checkAllRacersFinished_fst_eq s
  rw [hg]
  exact ⟨h.1, h.2⟩

/-- The frame step preserves the speed-range invariant: the periodic nudge is
re-clamped inside updateCompetitors and no later phase rewrites speeds. -/
lemma speedInv_update (s : SceneState) (time delta : ℚ) (vs : List ℚ) (now : ℚ)
    (h : SpeedInv s) : SpeedInv (update s time delta vs now).1 := by
  unfold update
  split
  · exact h
  · dsimp only
    have h2 : SpeedInv (checkCompetitorFinishes
        (updateCompetitors s time (delta / 1000) vs) now).1 :=
      speedInv_checkCompetitorFinishes _ now
        (speedInv_updateCompetitors s time (delta / 1000) vs h)
    split
    · exact h2
    · split
      · split
        · rename_i h0
          exact absurd h0 (lt_irrefl 0)
        · exact speedInv_checkAllRacersFinished _ h2
      · split
        · split
          · exact speedInv_checkAllRacersFinished _
              (speedInv_handleRosieFinish _ now (speedInv_checkForCheckpoint _ h2))
          · exact speedInv_checkAllRacersFinished _ (speedInv_checkForCheckpoint _ h2)
        · exact speedInv_checkAllRacersFinished _ h2

/-- handleSettingsUpdated re-clamps every speed into the newly scaled range. -/
lemma speedInv_handleSettingsUpdated (s : SceneState) (scale : ℚ) (h : SpeedInv s)
    (hscale : 0 ≤ scale) : SpeedInv (handleSettingsUpdated s scale) := by
  refine ⟨hscale, ?_⟩
  intro c2 hc2
  unfold handleSettingsUpdated at hc2
  dsimp only at hc2
  obtain ⟨c, hc, rfl⟩ := List.mem_map.mp hc2
  obtain ⟨hb0, hb1, _, _⟩ := h.2 c hc
  obtain ⟨hl, hr⟩ := clamp_mem c.speed (getMinSpeed c.familyMember scale)
    (getMaxSpeed c.familyMember scale)
    (getMinSpeed_le_getMaxSpeed c.familyMember scale hscale hb0 hb1)
  exact ⟨hb0, hb1, hl, hr⟩

/-- handleRestart resamples every AI speed inside its scaled range. -/
lemma speedInv_handleRestart (s : SceneState) (pool : List FamilyMember)
    (draws : List ℚ) (h : SpeedInv s)
    (hf : List.Forall₂ (fun m d =>
        0 ≤ m.baseMinSpeed ∧ m.baseMinSpeed ≤ m.baseMaxSpeed ∧
        getMinSpeed m s.speedScale ≤ d ∧ d ≤ getMaxSpeed m s.speedScale)
      (getRandomRacers pool 5) draws) :
    SpeedInv (handleRestart s pool draws).1 := by
  refine ⟨h.1, ?_⟩
  intro c hc
  exact createCompetitors_speed_range s.geometry (getRandomRacers pool 5) draws
    s.speedScale hf c hc

/-- The freshly created scene satisfies the speed-range invariant when the
initial draws are in range. -/
lemma speedInv_createScene (width : ℚ) (cpRatios : List ℚ) (pool : List FamilyMember)
    (draws : List ℚ) (scale : ℚ) (hscale : 0 ≤ scale)
    (hf : List.Forall₂ (fun m d =>
        0 ≤ m.baseMinSpeed ∧ m.baseMinSpeed ≤ m.baseMaxSpeed ∧
        getMinSpeed m scale ≤ d ∧ d ≤ getMaxSpeed m scale)
      (getRandomRacers pool 5) draws) :
    SpeedInv (createScene width cpRatios pool draws scale) := by
  refine ⟨hscale, ?_⟩
  intro c hc
  exact createCompetitors_speed_range (mkGeometry width cpRatios)
    (getRandomRacers pool 5) draws scale hf c hc

/-- Every event with well-formed randomness preserves the invariant. -/
lemma speedInv_stepEvent (s : SceneState) (e : REvent) (h : SpeedInv s)
    (hv : ValidStep s e) : SpeedInv (stepEvent s e).1 := by
  cases e with
  | tap =>
      simp only [stepEvent]
      unfold handleTap startCountdown setGameState
      split
      · exact h
      · split
        · exact h
        · split
          · exact h
          · split
            · exact h
            · split
              · exact h
              · exact h
  | answer correct timeTaken =>
      simp only [stepEvent]
      unfold handleMathAnswer
      dsimp only
      split
      · split
        · exact h
        · exact h
      · exact h
  | restart shuffledPool draws =>
      exact speedInv_handleRestart s shuffledPool draws h hv
  | settings scale =>
      exact speedInv_handleSettingsUpdated s scale h hv
  | countdownDone now =>
      simp only [stepEvent]
      split
      · exact h
      · exact h
  | frame time delta vs now => exact speedInv_update s time delta vs now h

/-- C10: from a scene created with in-range initial speed draws and a
nonnegative speed scale, along any event sequence whose randomness is
well-formed (restart draws inside the freshly selected profiles' scaled
ranges, settings scales nonnegative), every AI racer's speed lies inside the
[getMinSpeed, getMaxSpeed] range computed from its profile and the current
speed scale: the initial sample is in range and each periodic nudge and each
mid-race scale change is immediately re-clamped. -/
theorem ai_speed_in_range (width : ℚ) (cpRatios : List ℚ) (pool : List FamilyMember)
    (draws : List ℚ) (scale : ℚ) (s : SceneState) (hscale : 0 ≤ scale)
    (hdraws : List.Forall₂ (fun m d =>
        0 ≤ m.baseMinSpeed ∧ m.baseMinSpeed ≤ m.baseMaxSpeed ∧
        getMinSpeed m scale ≤ d ∧ d ≤ getMaxSpeed m scale)
      (getRandomRacers pool 5) draws)
    (hreach : ReachableV (createScene width cpRatios pool draws scale) s) :
    0 ≤ s.speedScale ∧ ∀ c ∈ s.competitors,
      getMinSpeed c.familyMember s.speedScale ≤ c.speed ∧
      c.speed ≤ getMaxSpeed c.familyMember s.speedScale := by
  have h : SpeedInv s := by
    induction hreach with
    | refl => exact speedInv_createScene width cpRatios pool draws scale hscale hdraws
    | step e hr hv ih => exact speedInv_stepEvent _ e ih hv
  exact ⟨h.1, fun c hc => ⟨(h.2 c hc).2.2.1, (h.2 c hc).2.2.2⟩⟩

/-- Witness for `ai_speed_in_range` at the freshly created demonstration
scene: the single AI racer's drawn speed 20 lies inside Mommy's scaled
range. -/
theorem ai_speed_in_range_witness :
    0 ≤ demoInit.speedScale ∧ ∀ c ∈ demoInit.competitors,
      getMinSpeed c.familyMember demoInit.speedScale ≤ c.speed ∧
      c.speed ≤ getMaxSpeed c.familyMember demoInit.speedScale :=
  ai_speed_in_range 100 POSITION_RATIOS [demoMember] [20] SPEED_SCALE demoInit
    (by norm_num [SPEED_SCALE])
    (List.Forall₂.cons (by decide) List.Forall₂.nil)
    ReachableV.refl

end RosieRaces
